import Mathlib

/-!
Verification of the streaming-read core of bmaptools TransRead.py.

The file shallowly embeds the module: `fake_seek_forward` (the forward-seek
emulator), class `_CompressedFile` (the buffered streaming decompressor, here
`CompressedFile`), and the `TransRead` facade (`TransReadSt`), together with
the suffix-driven `_open_compressed_file` wiring.  Raw byte sources are
modelled as the list of bytes still to be delivered; reads hand out
successive prefixes, which is the behaviour of the local-file, HTTP-response
and pipe objects the Python code reads from.  The stateful library
decompressor objects are modelled as a state type `δ` together with a
chunk-to-chunk function `δ → List Nat → δ × List Nat`, the shape of the
bound method `decompressobj().decompress` that the source passes around.
-/

set_option maxHeartbeats 1000000

namespace BmapTools

/-- Python os.SEEK_SET (the integer 0). -/
def SEEK_SET : Int := 0

/-- Python os.SEEK_CUR (the integer 1). -/
def SEEK_CUR : Int := 1

/-- Python os.SEEK_END (the integer 2), only used by native file seeks. -/
def SEEK_END : Int := 2

/-- Exceptions that can escape the seek paths.  The module raises a single
class Error with a human-readable message; each constructor below records
one raise site of TransRead.py together with the data interpolated into its
message.  `osInvalidSeek` stands for the IOError a native Python file seek
raises on an invalid target or whence. -/
inductive TRErr where
  /-- Error of TransRead.py line 31: whence must be SEEK_SET or SEEK_CUR. -/
  | invalidWhence (whence : Int)
  /-- Error of TransRead.py line 36: only seeking forward is allowed. -/
  | backwardSeek (curPos newPos : Int)
  /-- Error of TransRead.py line 50: seeked too far. -/
  | seekedTooFar (reached target : Int)
  /-- IOError from the operating system on an invalid native file seek. -/
  | osInvalidSeek (offset whence : Int)
deriving DecidableEq

/-- A one-pass raw byte source: the list of bytes not yet delivered.  This
models the file-like objects TransRead.py reads from (a local file read from
the start, an HTTP response body, a subprocess pipe): read(n) returns the
next min(n, remaining) bytes and an empty result means the source is
exhausted. -/
structure ByteSource where
  data : List Nat
deriving DecidableEq

/-- Sequential read from a raw byte source. -/
def ByteSource.read (s : ByteSource) (n : Nat) : ByteSource × List Nat :=
  (⟨s.data.drop n⟩, s.data.take n)

/-- The discard loop of _fake_seek_forward (TransRead.py lines 40-47):
while to_read > 0, read min(to_read, 1 MiB) bytes from the file object,
stop on an empty read, otherwise subtract the number of bytes obtained.
Like the Python function it is generic in the file-like object: `rd` is its
read method and `α` its state.  `to_read` is an Int because a read that
returned more bytes than requested would drive it negative (the "seeked too
far" branch checked by the caller). -/
def fakeSeekLoop {α : Type} (rd : α → Nat → α × List Nat) (s : α) (to_read : Int) :
    α × Int :=
  if h : 0 < to_read then
    match hr : rd s (min to_read.toNat (1024 * 1024)) with
    | (s', buf) =>
      if hb : buf = [] then (s', to_read)
      else fakeSeekLoop rd s' (to_read - buf.length)
  else (s, to_read)
termination_by to_read.toNat
decreasing_by
  have hlen : 0 < buf.length := List.length_pos.mpr hb
  omega

/-- The tail of _fake_seek_forward after the target position `new_pos` has
been computed (TransRead.py lines 35-53): reject backward seeks, run the
discard loop, raise if the loop overshot, and return the position actually
reached (new_pos - to_read). -/
def fakeSeekRest {α : Type} (rd : α → Nat → α × List Nat) (file_obj : α)
    (cur_pos new_pos : Int) : Except TRErr (α × Int) :=
  if new_pos < cur_pos then .error (.backwardSeek cur_pos new_pos)
  else
    match hr : fakeSeekLoop rd file_obj (new_pos - cur_pos) with
    | (s', to_read) =>
      if to_read < 0 then .error (.seekedTooFar (new_pos - to_read) new_pos)
      else .ok (s', new_pos - to_read)

/-- _fake_seek_forward (TransRead.py lines 21-53).  Computes the target from
`whence` (SEEK_SET or SEEK_CUR, anything else raises), then discards bytes
forward.  Returns the new state of the file object and the reached
position. -/
def fake_seek_forward {α : Type} (rd : α → Nat → α × List Nat) (file_obj : α)
    (cur_pos offset whence : Int) : Except TRErr (α × Int) :=
  if whence = SEEK_SET then
    fakeSeekRest rd file_obj cur_pos offset
  else if whence = SEEK_CUR then
    fakeSeekRest rd file_obj cur_pos (cur_pos + offset)
  else
    .error (.invalidWhence whence)

/-- Python class _CompressedFile (TransRead.py lines 61-165).  `δ` is the
internal state of the stateful library decompressor whose bound decompress
method is the `decompress_func` argument; `none` models passing no
decompress function (plain pass-through of raw chunks). -/
structure CompressedFile (δ : Type) where
  file_obj : ByteSource
  decompress_func : Option (δ → List Nat → δ × List Nat)
  dstate : δ
  chunk_size : Nat
  pos : Int
  buffer : List Nat
  buffer_pos : Nat
  eof : Bool

/-- _CompressedFile.__init__ (lines 65-91).  The chunk_size argument models
Python's optional parameter: none (Python None) or some 0 are falsy and
select the default of 128 KiB. -/
def CompressedFile.init {δ : Type} (file_obj : ByteSource)
    (decompress_func : Option (δ → List Nat → δ × List Nat)) (dstate : δ)
    (chunk_size : Option Nat) : CompressedFile δ :=
  { file_obj := file_obj
    decompress_func := decompress_func
    dstate := dstate
    chunk_size := match chunk_size with
      | some c => if c ≠ 0 then c else 128 * 1024
      | none => 128 * 1024
    pos := 0
    buffer := []
    buffer_pos := 0
    eof := false }

/-- _CompressedFile._read_from_buffer (lines 103-115).  The Python slice
buffer[buffer_pos : buffer_pos + length] is (drop buffer_pos).take length. -/
def CompressedFile.readFromBuffer {δ : Type} (cf : CompressedFile δ) (length : Nat) :
    CompressedFile δ × List Nat :=
  if cf.buffer.length - cf.buffer_pos > length then
    ({ cf with buffer_pos := cf.buffer_pos + length },
     (cf.buffer.drop cf.buffer_pos).take length)
  else
    ({ cf with buffer := [], buffer_pos := 0 }, cf.buffer.drop cf.buffer_pos)

/-- One application of the optional decompress function to a raw chunk.
When decompress_func is absent the Python loop skips the call and uses the
raw chunk directly, which is the identity case below; the loop's
"if not buf: continue" guard then never fires because the raw chunk was
already checked to be non-empty. -/
def applyDec {δ : Type} (f? : Option (δ → List Nat → δ × List Nat)) (d : δ)
    (buf : List Nat) : δ × List Nat :=
  match f? with
  | some f => f d buf
  | none => (d, buf)

/-- The while loop of _CompressedFile.read (lines 135-157), with `data` the
bytes accumulated so far.  `size` is a Nat: the Python int only decreases,
is tested with "> 0", and in the one branch where it would go negative the
loop exits immediately, so truncated subtraction is observationally
identical. -/
def CompressedFile.readLoop {δ : Type} (cf : CompressedFile δ) (size : Nat)
    (data : List Nat) : CompressedFile δ × List Nat :=
  if hs : size = 0 then (cf, data)
  else
    match hr : cf.file_obj.read cf.chunk_size with
    | (fo', buf) =>
      if hb : buf = [] then ({ cf with file_obj := fo', eof := true }, data)
      else
        match applyDec cf.decompress_func cf.dstate buf with
        | (d', dbuf) =>
          let cf1 : CompressedFile δ := { cf with file_obj := fo', dstate := d' }
          if dbuf = [] then cf1.readLoop size data
          else if size ≤ dbuf.length then
            let r := CompressedFile.readFromBuffer { cf1 with buffer := dbuf } size
            (r.1, data ++ r.2)
          else
            cf1.readLoop (size - dbuf.length) (data ++ dbuf)
termination_by cf.file_obj.data.length
decreasing_by
  all_goals
    simp only [ByteSource.read, Prod.mk.injEq] at hr
    obtain ⟨h1, h2⟩ := hr
    have hb' : cf.file_obj.data ≠ [] ∧ cf.chunk_size ≠ 0 := by
      constructor <;> intro hcontra <;> subst h2 <;> simp [hcontra] at hb
    have hlen : 0 < cf.file_obj.data.length := List.length_pos.mpr hb'.1
    rw [← h1]
    simp only [List.length_drop]
    omega

/-- _CompressedFile.read (lines 117-161): serve from the internal buffer
first, then run the refill loop, and advance the position by the number of
bytes returned. -/
def CompressedFile.read {δ : Type} (cf : CompressedFile δ) (size : Nat) :
    CompressedFile δ × List Nat :=
  if cf.eof then (cf, [])
  else
    let r0 := cf.readFromBuffer size
    let r1 := r0.1.readLoop (size - r0.2.length) r0.2
    ({ r1.1 with pos := r1.1.pos + r1.2.length }, r1.2)

/-- _CompressedFile.seek (lines 93-96): self._pos is set to the result of
_fake_seek_forward applied to self (reads go through self.read, i.e. the
decompressed stream).  The reads performed by the emulator already mutate
the object, then the returned position is stored. -/
def CompressedFile.seek {δ : Type} (cf : CompressedFile δ) (offset whence : Int) :
    Except TRErr (CompressedFile δ) :=
  match fake_seek_forward (fun c n => CompressedFile.read c n) cf cf.pos offset whence with
  | .error e => .error e
  | .ok r => .ok { r.1 with pos := r.2 }

/-- _CompressedFile.tell (lines 98-101). -/
def CompressedFile.tell {δ : Type} (cf : CompressedFile δ) : Int :=
  cf.pos

/-- A native, seekable local file (the object returned by Python's
open(name, "rb")): an external collaborator of the module, modelled by its
standard read/seek contract (spec §4.5: "delegate to the active stream's
native seek").  Reads return successive bytes from the current offset;
seek repositions freely, also backward, failing only on a negative target
or an unknown whence. -/
structure LocalFile where
  data : List Nat
  pos : Nat
deriving DecidableEq

/-- Native file read: the next (at most) n bytes from the current offset. -/
def LocalFile.read (f : LocalFile) (n : Nat) : LocalFile × List Nat :=
  let out := (f.data.drop f.pos).take n
  ({ f with pos := f.pos + out.length }, out)

/-- Native file seek: repositions to offset / pos + offset / size + offset
for SEEK_SET / SEEK_CUR / SEEK_END; a negative resulting target or an
unknown whence raises IOError (EINVAL). -/
def LocalFile.seek (f : LocalFile) (offset whence : Int) : Except TRErr LocalFile :=
  if whence = SEEK_SET ∨ whence = SEEK_CUR ∨ whence = SEEK_END then
    let np : Int :=
      if whence = SEEK_SET then offset
      else if whence = SEEK_CUR then (f.pos : Int) + offset
      else (f.data.length : Int) + offset
    if np < 0 then .error (.osInvalidSeek offset whence)
    else .ok { f with pos := np.toNat }
  else .error (.osInvalidSeek offset whence)

/-- Native file tell. -/
def LocalFile.tell (f : LocalFile) : Int :=
  (f.pos : Int)

/-- The possible values of TransRead._transfile_obj that the module's own
read/seek/tell code paths operate on: a _CompressedFile (gz and bz2
pipelines), a native seekable local file (plain local source), or a
non-seekable raw stream with no seek attribute (plain URL source). -/
inductive TransFileObj (δ : Type) where
  | compressed (cf : CompressedFile δ)
  | native (f : LocalFile)
  | stream (s : ByteSource)

/-- Read dispatch of the active stream. -/
def TransFileObj.read {δ : Type} : TransFileObj δ → Nat → TransFileObj δ × List Nat
  | .compressed cf, n => (.compressed (cf.read n).1, (cf.read n).2)
  | .native f, n => (.native (f.read n).1, (f.read n).2)
  | .stream s, n => (.stream (s.read n).1, (s.read n).2)

/-- hasattr(self._transfile_obj, "seek") together with the call itself:
_CompressedFile and native files expose a seek method, a bare HTTP response
stream does not (none). -/
def TransFileObj.nativeSeek {δ : Type} :
    TransFileObj δ → Int → Int → Option (Except TRErr (TransFileObj δ))
  | .compressed cf, off, w => some ((cf.seek off w).map .compressed)
  | .native f, off, w => some ((f.seek off w).map .native)
  | .stream _, _, _ => none

/-- hasattr(self._transfile_obj, "tell") together with the call itself. -/
def TransFileObj.nativeTell {δ : Type} : TransFileObj δ → Option Int
  | .compressed cf => some cf.tell
  | .native f => some f.tell
  | .stream _ => none

/-- The state of a TransRead instance that read/seek/tell operate on
(TransRead.py lines 192-463): name, declared size, the flags set by
construction, the facade's own position counter, and the active stream. -/
structure TransReadSt (δ : Type) where
  name : String
  size : Option Nat
  is_compressed : Bool
  is_url : Bool
  force_fake_seek : Bool
  pos : Int
  transfile : TransFileObj δ

/-- TransRead.read (lines 426-436): a negative size means read to the end
and is replaced by the literal 0xFFFFFFFFFFFFFFFF; the facade's position
advances by the number of bytes returned. -/
def TransReadSt.read {δ : Type} (t : TransReadSt δ) (size : Int) :
    TransReadSt δ × List Nat :=
  let sz : Nat := if size < 0 then 0xFFFFFFFFFFFFFFFF else size.toNat
  let r := t.transfile.read sz
  ({ t with transfile := r.1, pos := t.pos + r.2.length }, r.2)

/-- TransRead.seek (lines 448-455): if _force_fake_seek is set or the
active stream has no seek attribute, emulate with _fake_seek_forward
against the active stream (updating the facade's own position counter);
otherwise delegate to the stream's own seek (the facade's counter is not
touched). -/
def TransReadSt.seek {δ : Type} (t : TransReadSt δ) (offset whence : Int) :
    Except TRErr (TransReadSt δ) :=
  match t.force_fake_seek, t.transfile.nativeSeek offset whence with
  | false, some r => r.map (fun tf' => { t with transfile := tf' })
  | _, _ =>
    (fake_seek_forward TransFileObj.read t.transfile t.pos offset whence).map
      (fun p => { t with transfile := p.1, pos := p.2 })

/-- TransRead.tell (lines 457-463): same dispatch as seek. -/
def TransReadSt.tell {δ : Type} (t : TransReadSt δ) : Int :=
  match t.force_fake_seek, t.transfile.nativeTell with
  | false, some p => p
  | _, _ => t.pos

/-- The first member of a tar archive as the streaming tar reader reports
it: its declared size and its content. -/
structure TarMember where
  size : Nat
  content : List Nat
deriving DecidableEq

/-- Python exceptions that library initialisation can raise inside
_open_compressed_file's try block: an IOError (caught and wrapped by the
module) or any other library exception such as tarfile.ReadError
(not an IOError, hence not caught). -/
inductive PyExc where
  | ioError (msg : String)
  | libError (msg : String)
deriving DecidableEq

/-- The external library collaborators _open_compressed_file invokes:
tarfile.open + next + extractfile over the raw source,
zlib.decompressobj(16 + MAX_WBITS) and bz2.BZ2Decompressor() (each
delivering a fresh decompressor state and its bound decompress method), and
os.fstat(...).st_size for plain local files.  They are parameters: their
behaviour is outside the module. -/
structure Libs (δ : Type) where
  tarNext : ByteSource → Except PyExc TarMember
  gzNew : Except PyExc (δ × (δ → List Nat → δ × List Nat))
  bz2New : Except PyExc (δ × (δ → List Nat → δ × List Nat))
  fstatSize : Nat

/-- What _open_compressed_file stores into self._transfile_obj: for the tar
branch the (opaque, library-owned) first-member stream, recorded by its
member; otherwise one of the module-level stream objects. -/
inductive OpenedObj (δ : Type) where
  | tarMember (m : TarMember)
  | transfile (tf : TransFileObj δ)

/-- The fields _open_compressed_file assigns: the active stream, the
declared size (self.size) and self.is_compressed. -/
structure Opened (δ : Type) where
  transfile_obj : OpenedObj δ
  size : Option Nat
  is_compressed : Bool

/-- How opening can fail: the module's Error("cannot open file '%s': %s")
raised from the except IOError handler, or an uncaught library exception
propagating raw. -/
inductive OpenExc where
  | moduleError (name msg : String)
  | raw (e : PyExc)
deriving DecidableEq

/-- Python str.endswith: exact, case-sensitive comparison of the name's
trailing characters with the suffix (both as their unicode character
sequences). -/
def endswith (s suffix : String) : Bool :=
  List.isSuffixOf suffix.data s.data

/-- TransRead._open_compressed_file (lines 198-232).  The suffix chain is
checked in source order with str.endswith (exact, case-sensitive).  The try
block's body may raise a library exception; only IOError is caught and
wrapped into the module Error carrying the name and the cause, anything
else propagates raw. -/
def open_compressed_file {δ : Type} (name : String) (is_url : Bool)
    (file_obj : ByteSource) (libs : Libs δ) : Except OpenExc (Opened δ) :=
  let body : Except PyExc (Opened δ) :=
    if endswith name ".tar.gz" || endswith name ".tar.bz2" || endswith name ".tgz" then
      match libs.tarNext file_obj with
      | .error e => .error e
      | .ok member => .ok ⟨.tarMember member, some member.size, true⟩
    else if endswith name ".gz" then
      match libs.gzNew with
      | .error e => .error e
      | .ok d =>
        .ok ⟨.transfile (.compressed (CompressedFile.init file_obj (some d.2) d.1 none)),
             none, true⟩
    else if endswith name ".bz2" then
      match libs.bz2New with
      | .error e => .error e
      | .ok d =>
        .ok ⟨.transfile (.compressed (CompressedFile.init file_obj (some d.2) d.1 (some 128))),
             none, true⟩
    else
      .ok ⟨.transfile (if is_url then .stream file_obj else .native ⟨file_obj.data, 0⟩),
           if is_url then none else some libs.fstatSize, false⟩
  match body with
  | .ok r => .ok r
  | .error (.ioError msg) => .error (.moduleError name msg)
  | .error e => .error (.raw e)

/-- Split a raw byte list into the successive chunks the refill loop reads:
chunks of `c` bytes (the last one possibly shorter).  With c = 0 the loop's
very first raw read is empty, so no chunk is ever consumed. -/
def chunkify (c : Nat) (D : List Nat) : List (List Nat) :=
  if h : c = 0 ∨ D = [] then [] else D.take c :: chunkify c (D.drop c)
termination_by D.length
decreasing_by
  push_neg at h
  have hlen : 0 < D.length := List.length_pos.mpr h.2
  simp only [List.length_drop]
  omega

/-- One-shot reference decompression: apply the decompress function to each
successive raw chunk, threading the decompressor state, and concatenate the
outputs in order. -/
def decompAll {δ : Type} (f? : Option (δ → List Nat → δ × List Nat)) (d : δ) :
    List (List Nat) → List Nat
  | [] => []
  | ch :: rest =>
    (applyDec f? d ch).2 ++ decompAll f? (applyDec f? d ch).1 rest

/-- The decompressed bytes a _CompressedFile state has still to deliver:
what remains in the internal buffer, followed (unless end-of-stream has
been recorded) by the decompression of the raw chunks still to be read. -/
def CompressedFile.remOut {δ : Type} (cf : CompressedFile δ) : List Nat :=
  cf.buffer.drop cf.buffer_pos ++
    (if cf.eof then []
     else decompAll cf.decompress_func cf.dstate (chunkify cf.chunk_size cf.file_obj.data))

/-- State invariant of _CompressedFile, satisfied by every state reachable
from the constructor: the buffer cursor stays inside the buffer, the chunk
size is positive (the constructor replaces a falsy chunk size by the
default), and once the end-of-stream flag is set the buffer has been fully
consumed and the raw source is exhausted. -/
def CompressedFile.inv {δ : Type} (cf : CompressedFile δ) : Prop :=
  cf.buffer_pos ≤ cf.buffer.length ∧ 1 ≤ cf.chunk_size ∧
    (cf.eof = true → cf.buffer.drop cf.buffer_pos = [] ∧ cf.file_obj.data = [])

/-- Repeated reads until an empty result, requesting sizes 0, 1, 2, ... of
the given size stream; `fuel` bounds the number of calls so that the
definition is total for arbitrary states. -/
def drainReads {δ : Type} (sizes : Nat → Nat) (fuel : Nat) (cf : CompressedFile δ) :
    List Nat :=
  match fuel with
  | 0 => []
  | fuel + 1 =>
    let r := cf.read (sizes 0)
    if r.2 = [] then [] else r.2 ++ drainReads (fun i => sizes (i + 1)) fuel r.1

/-- The results of a sequence of reads on a _CompressedFile, in order. -/
def CompressedFile.readSeq {δ : Type} (cf : CompressedFile δ) :
    List Nat → List (List Nat)
  | [] => []
  | n :: ns => (cf.read n).2 :: CompressedFile.readSeq (cf.read n).1 ns

/-- The results of a sequence of reads on a TransRead facade, in order. -/
def TransReadSt.readSeq {δ : Type} (t : TransReadSt δ) :
    List Int → List (List Nat)
  | [] => []
  | n :: ns => (t.read n).2 :: TransReadSt.readSeq (t.read n).1 ns

/-- The logical bytes an active stream has still to deliver. -/
def TransFileObj.rem {δ : Type} : TransFileObj δ → List Nat
  | .compressed cf => cf.remOut
  | .native f => f.data.drop f.pos
  | .stream s => s.data

/-- Invariant of an active stream: for a _CompressedFile its state
invariant, nothing for the other variants. -/
def TransFileObj.invT {δ : Type} : TransFileObj δ → Prop
  | .compressed cf => cf.inv
  | .native _ => True
  | .stream _ => True

/-- The active stream is exhausted: no further read can return bytes. -/
def TransFileObj.exhausted {δ : Type} : TransFileObj δ → Prop
  | .compressed cf => cf.eof = true
  | .native f => f.data.drop f.pos = []
  | .stream s => s.data = []

/-- A freshly constructed reader: nothing has been read yet. -/
def TransReadSt.fresh {δ : Type} (t : TransReadSt δ) : Prop :=
  t.pos = 0 ∧
    match t.transfile with
    | .compressed cf => cf.inv ∧ cf.pos = 0
    | .native f => f.pos = 0
    | .stream _ => True

/-- The position of the embedded forward-seek emulation state of an active
stream: a _CompressedFile carries its own counter, the other variants none
(their discards are accounted at the facade). -/
def TransFileObj.emuPos {δ : Type} : TransFileObj δ → Int
  | .compressed cf => cf.pos
  | .native _ => 0
  | .stream _ => 0

/-- One public operation on the facade. -/
inductive TROp where
  | read (size : Int)
  | seek (offset whence : Int)
deriving DecidableEq

/-- One facade operation together with its byte accounting: the bytes
returned to the caller, the bytes discarded by a facade-level emulated
seek, and the bytes discarded by an emulated seek performed inside a
delegated _CompressedFile.seek.  The state transition is exactly the one of
TransReadSt.read / TransReadSt.seek. -/
def TransReadSt.stepAcc {δ : Type} (t : TransReadSt δ) :
    TROp → Except TRErr (TransReadSt δ × Nat × Nat × Nat)
  | .read sz => .ok ((t.read sz).1, (t.read sz).2.length, 0, 0)
  | .seek off w =>
    match t.force_fake_seek, t.transfile.nativeSeek off w with
    | false, some r =>
      r.map (fun tf' =>
        ({ t with transfile := tf' }, 0, 0, (tf'.emuPos - t.transfile.emuPos).toNat))
    | _, _ =>
      (fake_seek_forward TransFileObj.read t.transfile t.pos off w).map
        (fun p => ({ t with transfile := p.1, pos := p.2 }, 0, (p.2 - t.pos).toNat, 0))

/-- Run a sequence of facade operations, accumulating the three byte
tallies of `stepAcc`; stops at the first raised error. -/
def TransReadSt.runAcc {δ : Type} (t : TransReadSt δ) :
    List TROp → Except TRErr (TransReadSt δ × Nat × Nat × Nat)
  | [] => .ok (t, 0, 0, 0)
  | op :: ops =>
    match t.stepAcc op with
    | .error e => .error e
    | .ok (t', r, dOwn, dDel) =>
      match t'.runAcc ops with
      | .error e => .error e
      | .ok (t'', r', o', d') => .ok (t'', r + r', dOwn + o', dDel + d')

/-! Concrete fixtures used by the closed instance theorems below. -/

/-- A toy stateless chunk decompressor that doubles each chunk. -/
def dupDec : Unit → List Nat → Unit × List Nat :=
  fun u ch => (u, ch ++ ch)

/-- The identity chunk transform, standing for a decompressor that yields
the chunk unchanged. -/
def idDec : Unit → List Nat → Unit × List Nat :=
  fun u ch => (u, ch)

/-- Boolean success test for a seek result (used to exhibit a seek that
does not raise). -/
def seekOk {δ : Type} : Except TRErr (TransReadSt δ) → Bool
  | .ok _ => true
  | .error _ => false

/-- Projection of an accounting run to decidable data: the facade position
and the three byte tallies. -/
def accView {δ : Type} :
    Except TRErr (TransReadSt δ × Nat × Nat × Nat) → Option (Int × Nat × Nat × Nat)
  | .ok (t, r, dOwn, dDel) => some (t.pos, r, dOwn, dDel)
  | .error _ => none

/-- A gzip-like reader over the one-byte source [7] (chunk size 1, identity
decompression), used for the end-of-stream instances. -/
def c5t : TransReadSt Unit :=
  { name := "a.gz", size := none, is_compressed := true, is_url := false,
    force_fake_seek := false, pos := 0,
    transfile := .compressed (CompressedFile.init ⟨[7]⟩ (some idDec) () (some 1)) }

/-- A gzip-like reader over an empty source, used for the end-of-stream
instances. -/
def c5w : TransReadSt Unit :=
  { name := "b.gz", size := none, is_compressed := true, is_url := false,
    force_fake_seek := false, pos := 0,
    transfile := .compressed (CompressedFile.init ⟨[]⟩ (some idDec) () (some 1)) }

/-- A plain uncompressed local-file reader over the two bytes [5, 6]
(the state TransRead builds for a name with no recognised suffix). -/
def c4t : TransReadSt Unit :=
  { name := "plain.img", size := some 2, is_compressed := false, is_url := false,
    force_fake_seek := false, pos := 0, transfile := .native ⟨[5, 6], 0⟩ }

/-- A plain URL-backed reader (non-seekable response stream) that has
already delivered one byte. -/
def c4w : TransReadSt Unit :=
  { name := "u.bin", size := none, is_compressed := false, is_url := true,
    force_fake_seek := false, pos := 1, transfile := .stream ⟨[9]⟩ }

/-- A buffered decompressor state whose position counter is at 2. -/
def cf4 : CompressedFile Unit :=
  { file_obj := ⟨[3]⟩, decompress_func := some idDec, dstate := (), chunk_size := 1,
    pos := 2, buffer := [], buffer_pos := 0, eof := false }

/-- A gzip-like fresh reader over [10, 20, 30] with chunk size 2. -/
def c3t : TransReadSt Unit :=
  { name := "c.gz", size := none, is_compressed := true, is_url := false,
    force_fake_seek := false, pos := 0,
    transfile := .compressed (CompressedFile.init ⟨[10, 20, 30]⟩ (some idDec) () (some 2)) }

/-- Libraries that succeed, for the classification instances. -/
def libsW : Libs Unit :=
  { tarNext := fun _ => .ok ⟨100, [1, 2]⟩, gzNew := .ok ((), idDec),
    bz2New := .ok ((), idDec), fstatSize := 42 }

/-- Libraries whose tar initialisation raises a non-IOError library
exception (tarfile.ReadError on malformed headers). -/
def libsBad : Libs Unit :=
  { tarNext := fun _ => .error (.libError "truncated header"), gzNew := .ok ((), idDec),
    bz2New := .ok ((), idDec), fstatSize := 0 }

/-- Libraries whose tar initialisation raises an IOError. -/
def libsIO : Libs Unit :=
  { tarNext := fun _ => .error (.ioError "io fail"), gzNew := .ok ((), idDec),
    bz2New := .ok ((), idDec), fstatSize := 0 }

/-- A gzip-like reader over [1, 2] (chunk size 1): its active stream is a
_CompressedFile, which exposes a seek method, so the facade delegates seeks
to it. -/
def c8t : TransReadSt Unit :=
  { name := "d.gz", size := none, is_compressed := true, is_url := false,
    force_fake_seek := false, pos := 0,
    transfile := .compressed (CompressedFile.init ⟨[1, 2]⟩ (some idDec) () (some 1)) }

/-- The buffered-decompressor state of c8t after read(1): one raw byte
consumed and delivered, position counter at 1. -/
def cfA : CompressedFile Unit :=
  { file_obj := ⟨[2]⟩, decompress_func := some idDec, dstate := (), chunk_size := 1,
    pos := 1, buffer := [], buffer_pos := 0, eof := false }

/-- The facade state of c8t after read(1). -/
def c8tA : TransReadSt Unit :=
  { name := "d.gz", size := none, is_compressed := true, is_url := false,
    force_fake_seek := false, pos := 1, transfile := .compressed cfA }

/-- A URL-backed reader over the response stream [9, 8, 7]: the stream has
no seek attribute, so every seek is emulated at the facade itself. -/
def c8w : TransReadSt Unit :=
  { name := "v.bin", size := none, is_compressed := false, is_url := true,
    force_fake_seek := false, pos := 0, transfile := .stream ⟨[9, 8, 7]⟩ }

/-- The state c8w reaches after read(1) and an emulated seek(3, SEEK_SET). -/
def c8res : TransReadSt Unit :=
  { name := "v.bin", size := none, is_compressed := false, is_url := true,
    force_fake_seek := false, pos := 3, transfile := .stream ⟨[]⟩ }

/-! Theorems.  First a toolbox of small facts about the embedded
operations, then the per-claim results. -/

theorem byteSource_read_fst (s : ByteSource) (n : Nat) :
    (s.read n).1 = ⟨s.data.drop n⟩ := rfl

theorem byteSource_read_snd (s : ByteSource) (n : Nat) :
    (s.read n).2 = s.data.take n := rfl

theorem chunkify_nil (c : Nat) : chunkify c [] = [] := by
  rw [chunkify]
  simp

theorem chunkify_zero (D : List Nat) : chunkify 0 D = [] := by
  rw [chunkify]
  simp

theorem chunkify_cons (c : Nat) (D : List Nat) (hc : c ≠ 0) (hD : D ≠ []) :
    chunkify c D = D.take c :: chunkify c (D.drop c) := by
  rw [chunkify]
  simp [hc, hD]

/-- What _read_from_buffer returns and how it transforms the state: the
first min(length, remaining) buffered bytes are handed out and consumed;
no other field changes. -/
theorem readFromBuffer_spec {δ : Type} (cf : CompressedFile δ) (n : Nat)
    (hbp : cf.buffer_pos ≤ cf.buffer.length) :
    (cf.readFromBuffer n).2 = (cf.buffer.drop cf.buffer_pos).take n ∧
    (cf.readFromBuffer n).1.buffer.drop (cf.readFromBuffer n).1.buffer_pos
        = (cf.buffer.drop cf.buffer_pos).drop n ∧
    (cf.readFromBuffer n).1.buffer_pos ≤ (cf.readFromBuffer n).1.buffer.length ∧
    (cf.readFromBuffer n).1.file_obj = cf.file_obj ∧
    (cf.readFromBuffer n).1.decompress_func = cf.decompress_func ∧
    (cf.readFromBuffer n).1.dstate = cf.dstate ∧
    (cf.readFromBuffer n).1.chunk_size = cf.chunk_size ∧
    (cf.readFromBuffer n).1.eof = cf.eof ∧
    (cf.readFromBuffer n).1.pos = cf.pos := by
  unfold CompressedFile.readFromBuffer
  by_cases h : cf.buffer.length - cf.buffer_pos > n
  · have hR : ((cf.buffer.drop cf.buffer_pos).take n).length = n := by
      simp only [List.length_take, List.length_drop]
      omega
    simp only [if_pos h]
    refine ⟨by trivial, ?_, by omega, by trivial, by trivial, by trivial,
      by trivial, by trivial, by trivial⟩
    rw [List.drop_drop]
  · have hle : (cf.buffer.drop cf.buffer_pos).length ≤ n := by
      simp only [List.length_drop]
      omega
    simp [if_neg h, List.take_of_length_le hle, List.drop_eq_nil_of_le hle]

/-- The refill loop of read, measured against the one-shot decompression of
the raw chunks still to be read: it appends the first `size` of those bytes
to `data`, leaves exactly the rest pending, sets the end-of-stream flag
whenever it comes up short, and preserves the state invariant.  Stated with
an explicit bound `N` on the raw bytes remaining to drive the induction. -/
theorem readLoop_spec {δ : Type} :
    ∀ (N : Nat) (cf : CompressedFile δ) (size : Nat) (data : List Nat),
      cf.file_obj.data.length ≤ N →
      cf.buffer = [] → cf.buffer_pos = 0 → cf.eof = false → 1 ≤ cf.chunk_size →
      ((cf.readLoop size data).2
          = data ++ (decompAll cf.decompress_func cf.dstate
              (chunkify cf.chunk_size cf.file_obj.data)).take size ∧
       (cf.readLoop size data).1.remOut
          = (decompAll cf.decompress_func cf.dstate
              (chunkify cf.chunk_size cf.file_obj.data)).drop size ∧
       ((decompAll cf.decompress_func cf.dstate
            (chunkify cf.chunk_size cf.file_obj.data)).length < size →
          (cf.readLoop size data).1.eof = true) ∧
       (cf.readLoop size data).1.inv ∧
       (cf.readLoop size data).1.chunk_size = cf.chunk_size ∧
       (cf.readLoop size data).1.decompress_func = cf.decompress_func) := by
  intro N
  induction N with
  | zero =>
    intro cf size data hN hb hp he hc
    obtain ⟨⟨fod⟩, df, d0, c, p, buf0, bp, eofb⟩ := cf
    dsimp only at hN hb hp he hc ⊢
    subst hb
    subst hp
    subst he
    have hfile : fod = [] := List.eq_nil_of_length_eq_zero (by omega)
    subst hfile
    unfold CompressedFile.readLoop
    split
    · rename_i hs
      subst hs
      simp [CompressedFile.remOut, CompressedFile.inv, hc, chunkify_nil, decompAll]
    · rename_i hs
      split
      rename_i fo' buf hr
      simp only [ByteSource.read, List.drop_nil, List.take_nil, Prod.mk.injEq] at hr
      obtain ⟨h1, h2⟩ := hr
      rw [dif_pos h2.symm]
      subst h1
      simp [CompressedFile.remOut, CompressedFile.inv, hc, chunkify_nil, decompAll]
  | succ N ih =>
    intro cf size data hN hb hp he hc
    obtain ⟨⟨fod⟩, df, d0, c, p, buf0, bp, eofb⟩ := cf
    dsimp only at hN hb hp he hc ⊢
    subst hb
    subst hp
    subst he
    unfold CompressedFile.readLoop
    split
    · rename_i hs
      subst hs
      simp [CompressedFile.remOut, CompressedFile.inv, hc]
    · rename_i hs
      split
      rename_i fo' buf hr
      simp only [ByteSource.read, Prod.mk.injEq] at hr
      obtain ⟨h1, h2⟩ := hr
      subst h1
      subst h2
      by_cases hbe : fod.take c = []
      · rw [dif_pos hbe]
        have hfile : fod = [] := by
          rcases List.take_eq_nil_iff.mp hbe with h | h
          · exact absurd h (by omega)
          · exact h
        subst hfile
        simp [CompressedFile.remOut, CompressedFile.inv, hc, chunkify_nil, decompAll]
      · rw [dif_neg hbe]
        have hfne : fod ≠ [] := by
          intro hcontra
          subst hcontra
          simp at hbe
        have hchunks : chunkify c fod = fod.take c :: chunkify c (fod.drop c) :=
          chunkify_cons _ _ (by omega) hfne
        split
        rename_i d' dbuf heq
        have hRsplit : decompAll df d0 (chunkify c fod)
            = dbuf ++ decompAll df d' (chunkify c (fod.drop c)) := by
          rw [hchunks]
          simp [decompAll, heq]
        have hdropN : (fod.drop c).length ≤ N := by
          have := List.length_pos.mpr hfne
          simp only [List.length_drop]
          omega
        by_cases hde : dbuf = []
        · rw [if_pos hde]
          have hrec := ih ⟨⟨fod.drop c⟩, df, d', c, p, [], 0, false⟩ size data
            hdropN rfl rfl rfl hc
          rw [hRsplit, hde]
          simpa using hrec
        · rw [if_neg hde]
          by_cases hsz : size ≤ dbuf.length
          · rw [if_pos hsz]
            have hrfb := readFromBuffer_spec ⟨⟨fod.drop c⟩, df, d', c, p, dbuf, 0, false⟩
              size (by simp)
            obtain ⟨hr1, hr2, hr3, hr4, hr5, hr6, hr7, hr8, hr9⟩ := hrfb
            simp only [List.drop_zero] at hr1 hr2
            refine ⟨?_, ?_, ?_, ?_, ?_, ?_⟩
            · rw [hRsplit, List.take_append_eq_append_take, Nat.sub_eq_zero_of_le hsz]
              simp [hr1]
            · rw [hRsplit, List.drop_append_eq_append_drop, Nat.sub_eq_zero_of_le hsz]
              have heof : (CompressedFile.readFromBuffer
                  ⟨⟨fod.drop c⟩, df, d', c, p, dbuf, 0, false⟩ size).1.eof = false := by
                rw [hr8]
              simp [CompressedFile.remOut, hr2, hr4, hr5, hr6, hr7, heof]
            · intro habs
              rw [hRsplit, List.length_append] at habs
              omega
            · refine ⟨hr3, ?_, ?_⟩
              · rw [hr7]
                exact hc
              · intro habs
                rw [hr8] at habs
                simp at habs
            · rw [hr7]
            · rw [hr5]
          · rw [if_neg hsz]
            have hrec := ih ⟨⟨fod.drop c⟩, df, d', c, p, [], 0, false⟩
              (size - dbuf.length) (data ++ dbuf) hdropN rfl rfl rfl hc
            obtain ⟨hc1, hc2, hc3, hc4, hc5, hc6⟩ := hrec
            refine ⟨?_, ?_, ?_, hc4, ?_, ?_⟩
            · rw [hRsplit, List.take_append_eq_append_take,
                List.take_of_length_le (show dbuf.length ≤ size by omega)]
              simpa [List.append_assoc] using hc1
            · rw [hRsplit, List.drop_append_eq_append_drop,
                List.drop_eq_nil_of_le (show dbuf.length ≤ size by omega)]
              simpa using hc2
            · intro habs
              rw [hRsplit, List.length_append] at habs
              dsimp only at hc3
              exact hc3 (by omega)
            · simpa using hc5
            · simpa using hc6

theorem readLoop_zero {δ : Type} (cf : CompressedFile δ) (d : List Nat) :
    cf.readLoop 0 d = (cf, d) := by
  unfold CompressedFile.readLoop
  simp

/-- The contract of _CompressedFile.read on any state satisfying the
invariant: it returns exactly the first `n` pending decompressed bytes
(fewer when fewer remain), leaves exactly the rest pending, comes up short
only with the end-of-stream flag set and the raw source exhausted, and
preserves the invariant. -/
theorem read_spec {δ : Type} (cf : CompressedFile δ) (hinv : cf.inv) (n : Nat) :
    (cf.read n).2 = cf.remOut.take n ∧
    (cf.read n).1.remOut = cf.remOut.drop n ∧
    ((cf.read n).2.length < n →
      (cf.read n).1.eof = true ∧ (cf.read n).1.file_obj.data = []) ∧
    (cf.read n).1.inv ∧
    (cf.read n).1.chunk_size = cf.chunk_size ∧
    (cf.read n).1.decompress_func = cf.decompress_func := by
  obtain ⟨⟨fod⟩, df, d0, c, p, buf0, bp, eofb⟩ := cf
  obtain ⟨hbp, hcs, hef⟩ := hinv
  cases eofb with
  | true =>
    obtain ⟨hbuf, hfod⟩ := hef rfl
    dsimp only at hbuf hfod hbp hcs
    have hread : CompressedFile.read ⟨⟨fod⟩, df, d0, c, p, buf0, bp, true⟩ n
        = (⟨⟨fod⟩, df, d0, c, p, buf0, bp, true⟩, []) := by
      unfold CompressedFile.read
      simp
    rw [hread]
    simp [CompressedFile.remOut, CompressedFile.inv, hbuf, hfod, hbp, hcs]
  | false =>
    dsimp only at hbp hcs
    by_cases hgt : buf0.length - bp > n
    · have hlen : ((buf0.drop bp).take n).length = n := by
        simp only [List.length_take, List.length_drop]
        omega
      have hread : CompressedFile.read ⟨⟨fod⟩, df, d0, c, p, buf0, bp, false⟩ n
          = (⟨⟨fod⟩, df, d0, c, p + n, buf0, bp + n, false⟩, (buf0.drop bp).take n) := by
        unfold CompressedFile.read CompressedFile.readFromBuffer
        simp only [Bool.false_eq_true, if_false, dite_eq_ite]
        rw [if_pos hgt]
        dsimp only
        rw [hlen, Nat.sub_self, readLoop_zero]
        simp [hlen]
      rw [hread]
      refine ⟨?_, ?_, ?_, ?_, ?_, ?_⟩
      · simp only [CompressedFile.remOut]
        rw [List.take_append_eq_append_take,
          Nat.sub_eq_zero_of_le (by simp only [List.length_drop]; omega)]
        simp
      · simp only [CompressedFile.remOut]
        rw [List.drop_append_eq_append_drop,
          Nat.sub_eq_zero_of_le (by simp only [List.length_drop]; omega)]
        rw [List.drop_drop]
        congr 2
      · intro habs
        rw [hlen] at habs
        omega
      · exact ⟨by dsimp only; omega, hcs, by intro h; cases h⟩
      · rfl
      · rfl
    · have hble : (buf0.drop bp).length ≤ n := by
        simp only [List.length_drop]
        omega
      have hloop := readLoop_spec fod.length ⟨⟨fod⟩, df, d0, c, p, [], 0, false⟩
        (n - (buf0.drop bp).length) (buf0.drop bp) (le_refl _) rfl rfl rfl hcs
      dsimp only at hloop
      obtain ⟨hl1, hl2, hl3, hl4, hl5, hl6⟩ := hloop
      have hread : CompressedFile.read ⟨⟨fod⟩, df, d0, c, p, buf0, bp, false⟩ n
          = (let L := CompressedFile.readLoop ⟨⟨fod⟩, df, d0, c, p, [], 0, false⟩
                (n - (buf0.drop bp).length) (buf0.drop bp);
             ({ L.1 with pos := L.1.pos + L.2.length }, L.2)) := by
        unfold CompressedFile.read CompressedFile.readFromBuffer
        simp only [Bool.false_eq_true, if_false, dite_eq_ite]
        rw [if_neg hgt]
      rw [hread]
      dsimp only
      refine ⟨?_, ?_, ?_, ?_, ?_, ?_⟩
      · rw [hl1]
        simp only [CompressedFile.remOut]
        rw [List.take_append_eq_append_take, List.take_of_length_le hble,
          List.length_drop]
        simp
      · simp only [CompressedFile.remOut] at hl2 ⊢
        rw [List.drop_append_eq_append_drop, List.drop_eq_nil_of_le hble,
          List.length_drop]
        simpa using hl2
      · intro habs
        rw [hl1, List.length_append, List.length_take] at habs
        have hRlt : (decompAll df d0 (chunkify c fod)).length
            < n - (buf0.drop bp).length := by omega
        obtain ⟨hinv1, hinv2, hinv3⟩ := hl4
        have heof := hl3 hRlt
        exact ⟨heof, (hinv3 heof).2⟩
      · obtain ⟨hinv1, hinv2, hinv3⟩ := hl4
        exact ⟨hinv1, hinv2, hinv3⟩
      · exact hl5
      · exact hl6

/-- The discard loop never increases to_read (fuel-indexed auxiliary). -/
theorem fakeSeekLoopLeAux {α : Type} (rd : α → Nat → α × List Nat) :
    ∀ (N : Nat) (s : α) (t : Int), t.toNat ≤ N → (fakeSeekLoop rd s t).2 ≤ t := by
  intro N
  induction N with
  | zero =>
    intro s t hN
    unfold fakeSeekLoop
    split
    · rename_i hpos
      exact absurd hpos (by omega)
    · exact le_refl t
  | succ N ih =>
    intro s t hN
    unfold fakeSeekLoop
    split
    · rename_i hpos
      split
      rename_i s' buf hr
      split
      · exact le_refl t
      · rename_i hbne
        have hlen : 1 ≤ buf.length := List.length_pos.mpr hbne
        have hrec := ih s' (t - buf.length) (by omega)
        omega
    · exact le_refl t

/-- The discard loop never increases to_read. -/
theorem fakeSeekLoop_le {α : Type} (rd : α → Nat → α × List Nat) (s : α) (t : Int) :
    (fakeSeekLoop rd s t).2 ≤ t :=
  fakeSeekLoopLeAux rd t.toNat s t (le_refl _)

/-- If every read returns at most the number of bytes requested, the
discard loop never drives to_read negative (fuel-indexed auxiliary). -/
theorem fakeSeekLoopNonnegAux {α : Type} (rd : α → Nat → α × List Nat)
    (hle : ∀ (s : α) (n : Nat), (rd s n).2.length ≤ n) :
    ∀ (N : Nat) (s : α) (t : Int), 0 ≤ t → t.toNat ≤ N →
      0 ≤ (fakeSeekLoop rd s t).2 := by
  intro N
  induction N with
  | zero =>
    intro s t ht hN
    unfold fakeSeekLoop
    split
    · rename_i hpos
      exact absurd hpos (by omega)
    · exact ht
  | succ N ih =>
    intro s t ht hN
    unfold fakeSeekLoop
    split
    · rename_i hpos
      split
      rename_i s' buf hr
      split
      · exact ht
      · rename_i hbne
        have hblen := hle s (min t.toNat (1024 * 1024))
        rw [hr] at hblen
        dsimp only at hblen
        have hlen : 1 ≤ buf.length := List.length_pos.mpr hbne
        exact ih s' (t - buf.length) (by omega) (by omega)
    · exact ht

/-- If every read returns at most the number of bytes requested, the
discard loop never drives to_read negative. -/
theorem fakeSeekLoop_nonneg {α : Type} (rd : α → Nat → α × List Nat)
    (hle : ∀ (s : α) (n : Nat), (rd s n).2.length ≤ n) (s : α) (t : Int)
    (ht : 0 ≤ t) : 0 ≤ (fakeSeekLoop rd s t).2 :=
  fakeSeekLoopNonnegAux rd hle t.toNat s t ht (le_refl _)

/-- The discard loop over a well-behaved stream (reads hand out successive
prefixes of a remainder `rem`, preserving a state predicate `P`): it
consumes exactly min(t, remaining) bytes, so the leftover to_read is
t - min t remaining, the stream remainder loses its first t bytes, and `P`
is preserved (fuel-indexed auxiliary). -/
theorem fakeSeekLoopRemAux {α : Type} (rd : α → Nat → α × List Nat)
    (rem : α → List Nat) (P : α → Prop)
    (hrd : ∀ (s : α) (n : Nat), P s →
      (rd s n).2 = (rem s).take n ∧ rem (rd s n).1 = (rem s).drop n ∧ P (rd s n).1) :
    ∀ (N : Nat) (s : α) (t : Int), P s → 0 ≤ t → t.toNat ≤ N →
      ((fakeSeekLoop rd s t).2 = t - min t ((rem s).length : Int) ∧
       rem (fakeSeekLoop rd s t).1 = (rem s).drop t.toNat ∧
       P (fakeSeekLoop rd s t).1) := by
  intro N
  induction N with
  | zero =>
    intro s t hP ht hN
    have ht0 : t = 0 := by omega
    subst ht0
    unfold fakeSeekLoop
    split
    · rename_i hpos
      exact absurd hpos (by omega)
    · exact ⟨by omega, by simp, hP⟩
  | succ N ih =>
    intro s t hP ht hN
    unfold fakeSeekLoop
    split
    · rename_i hpos
      split
      rename_i s' buf hr
      obtain ⟨hb1, hb2, hb3⟩ := hrd s (min t.toNat (1024 * 1024)) hP
      rw [hr] at hb1 hb2 hb3
      dsimp only at hb1 hb2 hb3
      have hchunk : 1 ≤ min t.toNat (1024 * 1024) := by omega
      split
      · rename_i hbe
        rw [hbe] at hb1
        have hremnil : rem s = [] := by
          rcases List.take_eq_nil_iff.mp hb1.symm with h | h
          · exact absurd h (by omega)
          · exact h
        refine ⟨?_, ?_, hb3⟩
        · rw [hremnil]
          simp
          omega
        · rw [hb2, hremnil]
          simp
      · rename_i hbne
        have hblen : buf.length = min (min t.toNat (1024 * 1024)) (rem s).length := by
          rw [hb1, List.length_take]
        have hlen1 : 1 ≤ buf.length := List.length_pos.mpr hbne
        have hrec := ih s' (t - buf.length) hb3 (by omega) (by omega)
        obtain ⟨hrc1, hrc2, hrc3⟩ := hrec
        rw [hb2] at hrc1 hrc2
        refine ⟨?_, ?_, hrc3⟩
        · rw [hrc1]
          simp only [List.length_drop]
          omega
        · by_cases hcl : (rem s).length ≤ min t.toNat (1024 * 1024)
          · rw [hrc2, List.drop_drop,
              List.drop_eq_nil_of_le
                (show (rem s).length ≤ min t.toNat (1024 * 1024)
                    + (t - (buf.length : Int)).toNat by omega),
              List.drop_eq_nil_of_le (show (rem s).length ≤ t.toNat by omega)]
          · rw [hrc2, List.drop_drop]
            congr 1
            omega
    · rename_i hpos
      have ht0 : t = 0 := by omega
      subst ht0
      exact ⟨by omega, by simp, hP⟩

/-- Wrapper for the loop specification with the fuel discharged. -/
theorem fakeSeekLoop_rem {α : Type} (rd : α → Nat → α × List Nat)
    (rem : α → List Nat) (P : α → Prop)
    (hrd : ∀ (s : α) (n : Nat), P s →
      (rd s n).2 = (rem s).take n ∧ rem (rd s n).1 = (rem s).drop n ∧ P (rd s n).1)
    (s : α) (t : Int) (hP : P s) (ht : 0 ≤ t) :
    ((fakeSeekLoop rd s t).2 = t - min t ((rem s).length : Int) ∧
     rem (fakeSeekLoop rd s t).1 = (rem s).drop t.toNat ∧
     P (fakeSeekLoop rd s t).1) :=
  fakeSeekLoopRemAux rd rem P hrd t.toNat s t hP ht (le_refl _)

/-- A backward target makes the emulator raise the backward-seek Error
before touching the stream. -/
theorem fakeSeekRest_backward {α : Type} (rd : α → Nat → α × List Nat) (s : α)
    (cur np : Int) (h : np < cur) :
    fakeSeekRest rd s cur np = .error (.backwardSeek cur np) := by
  unfold fakeSeekRest
  rw [if_pos h]

/-- Whatever the underlying read function does, a successful emulated seek
lands between the starting position and the requested target. -/
theorem fakeSeekRest_ok_bounds {α : Type} (rd : α → Nat → α × List Nat) (s : α)
    (cur np : Int) (s' : α) (p : Int)
    (h : fakeSeekRest rd s cur np = .ok (s', p)) : cur ≤ p ∧ p ≤ np := by
  unfold fakeSeekRest at h
  by_cases hb : np < cur
  · rw [if_pos hb] at h
    simp at h
  · rw [if_neg hb] at h
    split at h
    rename_i s₁ to_read hr
    by_cases hneg : to_read < 0
    · rw [if_pos hneg] at h
      simp at h
    · rw [if_neg hneg] at h
      have hle := fakeSeekLoop_le rd s (np - cur)
      rw [hr] at hle
      dsimp only at hle
      simp only [Except.ok.injEq, Prod.mk.injEq] at h
      obtain ⟨h1, h2⟩ := h
      omega

/-- When every read returns at most the requested number of bytes, the
emulator's overshoot check never fires: a valid forward seek always
succeeds, and the leftover to_read count is non-negative. -/
theorem fakeSeekRest_le_ok {α : Type} (rd : α → Nat → α × List Nat)
    (hle : ∀ (s : α) (n : Nat), (rd s n).2.length ≤ n) (s : α) (cur np : Int)
    (hc : cur ≤ np) :
    fakeSeekRest rd s cur np
      = .ok ((fakeSeekLoop rd s (np - cur)).1, np - (fakeSeekLoop rd s (np - cur)).2) ∧
    0 ≤ (fakeSeekLoop rd s (np - cur)).2 := by
  have hnn := fakeSeekLoop_nonneg rd hle s (np - cur) (by omega)
  refine ⟨?_, hnn⟩
  unfold fakeSeekRest
  rw [if_neg (by omega)]
  split
  rename_i s' to_read hr
  rw [hr] at hnn
  dsimp only at hnn
  rw [if_neg (by omega), hr]

/-- Forward emulated seek over a well-behaved stream: it succeeds and lands
on cur + min (np - cur) remaining, consuming exactly that many stream
bytes. -/
theorem fakeSeekRest_rem {α : Type} (rd : α → Nat → α × List Nat)
    (rem : α → List Nat) (P : α → Prop)
    (hrd : ∀ (s : α) (n : Nat), P s →
      (rd s n).2 = (rem s).take n ∧ rem (rd s n).1 = (rem s).drop n ∧ P (rd s n).1)
    (s : α) (hP : P s) (cur np : Int) (hc : cur ≤ np) :
    fakeSeekRest rd s cur np
      = .ok ((fakeSeekLoop rd s (np - cur)).1,
             cur + min (np - cur) ((rem s).length : Int)) ∧
    rem (fakeSeekLoop rd s (np - cur)).1 = (rem s).drop (np - cur).toNat ∧
    P (fakeSeekLoop rd s (np - cur)).1 := by
  obtain ⟨hl1, hl2, hl3⟩ := fakeSeekLoop_rem rd rem P hrd s (np - cur) hP (by omega)
  refine ⟨?_, hl2, hl3⟩
  unfold fakeSeekRest
  rw [if_neg (by omega)]
  split
  rename_i s' to_read hr
  rw [hr] at hl1
  dsimp only at hl1
  rw [if_neg (by omega), hr]
  dsimp only
  rw [show np - to_read = cur + min (np - cur) ((rem s).length : Int) from by omega]

/-- With a valid whence, _fake_seek_forward is the seek tail applied to the
computed target position. -/
theorem fake_seek_forward_eq_rest {α : Type} (rd : α → Nat → α × List Nat) (s : α)
    (cur off w : Int) (hw : w = SEEK_SET ∨ w = SEEK_CUR) :
    fake_seek_forward rd s cur off w
      = fakeSeekRest rd s cur (if w = SEEK_SET then off else cur + off) := by
  rcases hw with h | h <;> subst h <;>
    simp [fake_seek_forward, SEEK_SET, SEEK_CUR]

/-- Draining a _CompressedFile with repeated positive-size reads until an
empty result returns exactly its pending decompressed bytes, provided the
fuel covers the number of calls (one per byte plus the final empty read is
always enough). -/
theorem drainReads_spec {δ : Type} :
    ∀ (fuel : Nat) (cf : CompressedFile δ) (sizes : Nat → Nat),
      cf.inv → (∀ i, 1 ≤ sizes i) → cf.remOut.length + 1 ≤ fuel →
      drainReads sizes fuel cf = cf.remOut := by
  intro fuel
  induction fuel with
  | zero =>
    intro cf sizes hinv hs hf
    exact absurd hf (by omega)
  | succ fuel ih =>
    intro cf sizes hinv hs hf
    obtain ⟨h1, h2, h3, h4, _, _⟩ := read_spec cf hinv (sizes 0)
    unfold drainReads
    dsimp only
    by_cases hre : (cf.read (sizes 0)).2 = []
    · rw [if_pos hre]
      have hnil : cf.remOut = [] := by
        have hpos := hs 0
        rw [h1] at hre
        rcases List.take_eq_nil_iff.mp hre with h | h
        · exact absurd h (by omega)
        · exact h
      rw [hnil]
    · rw [if_neg hre]
      have hne : cf.remOut ≠ [] := by
        intro hcontra
        rw [h1, hcontra] at hre
        simp at hre
      have hlen : (cf.read (sizes 0)).1.remOut.length + 1 ≤ fuel := by
        rw [h2, List.length_drop]
        have := List.length_pos.mpr hne
        have := hs 0
        omega
      rw [ih (cf.read (sizes 0)).1 (fun i => sizes (i + 1)) h4 (fun i => hs (i + 1)) hlen]
      rw [h1, h2]
      exact List.take_append_drop _ _

/-- C1.  Streaming decompression equals one-shot decompression: for every
raw byte source D, every (stateful) chunk-to-chunk decompress function f
with initial state d0, and every chunk size c ≥ 1 (in particular 1, 128 and
128*1024), reading the whole stream through a freshly constructed
_CompressedFile by repeated reads of arbitrary positive sizes until an
empty result yields exactly the concatenation, in order, of f applied to
the successive c-byte chunks of D.  The fuel only bounds the number of read
calls; one call per output byte plus the final empty read always
suffices. -/
theorem C1_streaming_eq_oneshot {δ : Type} (D : List Nat)
    (f : δ → List Nat → δ × List Nat) (d0 : δ) (c : Nat) (hc : 1 ≤ c)
    (sizes : Nat → Nat) (hs : ∀ i, 1 ≤ sizes i) (fuel : Nat)
    (hf : (decompAll (some f) d0 (chunkify c D)).length + 1 ≤ fuel) :
    drainReads sizes fuel (CompressedFile.init ⟨D⟩ (some f) d0 (some c))
      = decompAll (some f) d0 (chunkify c D) := by
  have hchunk : (CompressedFile.init (δ := δ) ⟨D⟩ (some f) d0 (some c)).chunk_size = c := by
    unfold CompressedFile.init
    dsimp only
    rw [if_pos (show c ≠ 0 from by omega)]
  have hrem : (CompressedFile.init ⟨D⟩ (some f) d0 (some c)).remOut
      = decompAll (some f) d0 (chunkify c D) := by
    unfold CompressedFile.remOut
    rw [hchunk]
    unfold CompressedFile.init
    simp
  have hinv : (CompressedFile.init ⟨D⟩ (some f) d0 (some c)).inv := by
    refine ⟨?_, ?_, ?_⟩
    · unfold CompressedFile.init
      simp
    · rw [hchunk]
      exact hc
    · intro habs
      rw [show (CompressedFile.init (δ := δ) ⟨D⟩ (some f) d0 (some c)).eof = false
        from rfl] at habs
      cases habs
  rw [drainReads_spec fuel _ sizes hinv hs (by rw [hrem]; exact hf), hrem]

/-- C1 witness: the duplicating decompressor over source [1,2,3], chunk
size 2, repeated reads of size 3: the drained bytes equal the one-shot
result [1,2,1,2,3,3]. -/
theorem C1_witness :
    (1 ≤ 2 ∧ (∀ i : Nat, 1 ≤ 3) ∧
      (decompAll (some dupDec) () (chunkify 2 [1, 2, 3])).length + 1 ≤ 7) ∧
    drainReads (fun _ => 3) 7 (CompressedFile.init ⟨[1, 2, 3]⟩ (some dupDec) () (some 2))
      = decompAll (some dupDec) () (chunkify 2 [1, 2, 3]) :=
  ⟨⟨by omega, fun _ => by omega, by simp [chunkify, decompAll, dupDec, applyDec]⟩,
   C1_streaming_eq_oneshot [1, 2, 3] dupDec () 2 (by omega) (fun _ => 3)
     (fun i => (by omega : (1 : Nat) ≤ 3)) 7
     (by simp [chunkify, decompAll, dupDec, applyDec])⟩

/-- C2.  On every state satisfying the reachable-state invariant,
_CompressedFile.read(n) returns at most n bytes; it raises nothing (the
embedded read is a total function, and the entry assertions pos ≥ 0,
0 ≤ buffer_pos ≤ len(buffer) hold under the invariant); and it returns
fewer than n bytes (possibly zero) only when the raw byte source has been
exhausted: the end-of-stream flag is then set and the source holds no
further bytes.  The invariant is preserved, so this holds along any
sequence of reads. -/
theorem C2_read_contract {δ : Type} (cf : CompressedFile δ) (hinv : cf.inv) (n : Nat) :
    (cf.read n).2.length ≤ n ∧
    ((cf.read n).2.length < n →
      (cf.read n).1.eof = true ∧ (cf.read n).1.file_obj.data = []) ∧
    (cf.read n).1.inv := by
  obtain ⟨h1, h2, h3, h4, _, _⟩ := read_spec cf hinv n
  refine ⟨?_, h3, h4⟩
  rw [h1, List.length_take]
  omega

/-- C2 witness: a 3-byte source read with n = 10 returns 3 ≤ 10 bytes,
and the short read leaves the flag set and the source exhausted. -/
theorem C2_witness :
    (CompressedFile.init (δ := Unit) ⟨[5, 6, 7]⟩ (some idDec) () (some 2)).inv ∧
    ((((CompressedFile.init (δ := Unit) ⟨[5, 6, 7]⟩ (some idDec) () (some 2)).read 10).2.length ≤ 10) ∧
     ((((CompressedFile.init (δ := Unit) ⟨[5, 6, 7]⟩ (some idDec) () (some 2)).read 10).2.length < 10) →
       (((CompressedFile.init (δ := Unit) ⟨[5, 6, 7]⟩ (some idDec) () (some 2)).read 10).1.eof = true ∧
        (((CompressedFile.init (δ := Unit) ⟨[5, 6, 7]⟩ (some idDec) () (some 2)).read 10).1.file_obj.data = []))) ∧
     ((CompressedFile.init (δ := Unit) ⟨[5, 6, 7]⟩ (some idDec) () (some 2)).read 10).1.inv) := by
  have hp : (CompressedFile.init (δ := Unit) ⟨[5, 6, 7]⟩ (some idDec) () (some 2)).inv := by
    refine ⟨?_, ?_, ?_⟩ <;> simp [CompressedFile.init]
  exact ⟨hp, C2_read_contract _ hp 10⟩

/-- The refill loop only ever appends to the data accumulated so far
(fuel-indexed). -/
theorem readLoopGrowAux {δ : Type} :
    ∀ (N : Nat) (cf : CompressedFile δ) (size : Nat) (data : List Nat),
      cf.file_obj.data.length ≤ N →
      ∃ ext, (cf.readLoop size data).2 = data ++ ext := by
  intro N
  induction N with
  | zero =>
    intro cf size data hN
    have hfile : cf.file_obj.data = [] := List.eq_nil_of_length_eq_zero (by omega)
    unfold CompressedFile.readLoop
    split
    · exact ⟨[], by simp⟩
    · split
      rename_i fo' buf hr
      have hbe : buf = [] := by
        have : buf = cf.file_obj.data.take cf.chunk_size := by
          rw [show buf = (cf.file_obj.read cf.chunk_size).2 from by rw [hr]]
          rfl
        rw [this, hfile, List.take_nil]
      rw [dif_pos hbe]
      exact ⟨[], by simp⟩
  | succ N ih =>
    intro cf size data hN
    unfold CompressedFile.readLoop
    split
    · exact ⟨[], by simp⟩
    · split
      rename_i fo' buf hr
      simp only [ByteSource.read, Prod.mk.injEq] at hr
      obtain ⟨h1, h2⟩ := hr
      subst h1
      subst h2
      by_cases hbe : cf.file_obj.data.take cf.chunk_size = []
      · rw [dif_pos hbe]
        exact ⟨[], by simp⟩
      · rw [dif_neg hbe]
        have hfne : cf.file_obj.data ≠ [] := by
          intro hcontra
          rw [hcontra] at hbe
          simp at hbe
        have hdropN : (cf.file_obj.data.drop cf.chunk_size).length ≤ N := by
          have h0 := List.length_pos.mpr hfne
          have h1 : cf.chunk_size ≠ 0 := by
            intro hc0
            rw [hc0] at hbe
            simp at hbe
          simp only [List.length_drop]
          omega
        split
        rename_i d' dbuf heq
        by_cases hde : dbuf = []
        · rw [if_pos hde]
          exact ih _ size data hdropN
        · rw [if_neg hde]
          by_cases hsz : size ≤ dbuf.length
          · rw [if_pos hsz]
            exact ⟨_, rfl⟩
          · rw [if_neg hsz]
            obtain ⟨ext, hext⟩ := ih
              { cf with file_obj := ⟨cf.file_obj.data.drop cf.chunk_size⟩, dstate := d' }
              (size - dbuf.length) (data ++ dbuf) hdropN
            exact ⟨dbuf ++ ext, by rw [hext, List.append_assoc]⟩

/-- The refill loop only ever appends to the data accumulated so far. -/
theorem readLoopGrow {δ : Type} (cf : CompressedFile δ) (size : Nat) (data : List Nat) :
    ∃ ext, (cf.readLoop size data).2 = data ++ ext :=
  readLoopGrowAux cf.file_obj.data.length cf size data (le_refl _)

/-- If the refill loop was entered with a positive size and a fully reset
buffer cursor and contributed nothing, it must have hit end-of-stream
(fuel-indexed). -/
theorem readLoopEmptyEofAux {δ : Type} :
    ∀ (N : Nat) (cf : CompressedFile δ) (size : Nat) (data : List Nat)
      (res : CompressedFile δ × List Nat),
      cf.file_obj.data.length ≤ N → 1 ≤ size → cf.buffer_pos = 0 →
      cf.readLoop size data = res → res.2 = data → res.1.eof = true := by
  intro N
  induction N with
  | zero =>
    intro cf size data res hN hsz hbp hres hdata
    have hfile : cf.file_obj.data = [] := List.eq_nil_of_length_eq_zero (by omega)
    unfold CompressedFile.readLoop at hres
    split at hres
    · rename_i hs
      exact absurd hs (by omega)
    · split at hres
      rename_i fo' buf hr
      have hbe : buf = [] := by
        have hb : buf = cf.file_obj.data.take cf.chunk_size := by
          rw [show buf = (cf.file_obj.read cf.chunk_size).2 from by rw [hr]]
          rfl
        rw [hb, hfile, List.take_nil]
      rw [dif_pos hbe] at hres
      rw [← hres]
  | succ N ih =>
    intro cf size data res hN hsz hbp hres hdata
    unfold CompressedFile.readLoop at hres
    split at hres
    · rename_i hs
      exact absurd hs (by omega)
    · split at hres
      rename_i fo' buf hr
      simp only [ByteSource.read, Prod.mk.injEq] at hr
      obtain ⟨h1, h2⟩ := hr
      subst h1
      subst h2
      by_cases hbe : cf.file_obj.data.take cf.chunk_size = []
      · rw [dif_pos hbe] at hres
        rw [← hres]
      · rw [dif_neg hbe] at hres
        have hfne : cf.file_obj.data ≠ [] := by
          intro hcontra
          rw [hcontra] at hbe
          simp at hbe
        have hc0 : cf.chunk_size ≠ 0 := by
          intro hcontra
          rw [hcontra] at hbe
          simp at hbe
        have hdropN : (cf.file_obj.data.drop cf.chunk_size).length ≤ N := by
          have h0 := List.length_pos.mpr hfne
          simp only [List.length_drop]
          omega
        split at hres
        rename_i d' dbuf heq
        by_cases hde : dbuf = []
        · rw [if_pos hde] at hres
          exact ih { cf with file_obj := ⟨cf.file_obj.data.drop cf.chunk_size⟩, dstate := d' }
            size data res hdropN hsz hbp hres hdata
        · rw [if_neg hde] at hres
          by_cases hsize : size ≤ dbuf.length
          · rw [if_pos hsize] at hres
            exfalso
            have hne : (CompressedFile.readFromBuffer { cf with file_obj := ⟨cf.file_obj.data.drop cf.chunk_size⟩, dstate := d', buffer := dbuf } size).2 ≠ [] := by
              unfold CompressedFile.readFromBuffer
              dsimp only
              rw [hbp]
              split
              · intro hcontra
                rcases List.take_eq_nil_iff.mp hcontra with h | h
                · omega
                · rw [List.drop_zero] at h
                  exact hde h
              · rw [List.drop_zero]
                exact hde
            rw [← hres] at hdata
            dsimp only at hdata
            have hlen := congrArg List.length hdata
            rw [List.length_append] at hlen
            exact hne (List.eq_nil_of_length_eq_zero (by omega))
          · rw [if_neg hsize] at hres
            exfalso
            obtain ⟨ext, hext⟩ := readLoopGrow { cf with file_obj := ⟨cf.file_obj.data.drop cf.chunk_size⟩, dstate := d' } (size - dbuf.length) (data ++ dbuf)
            rw [hres, hdata] at hext
            have hlen := congrArg List.length hext
            rw [List.append_assoc, List.length_append, List.length_append] at hlen
            have hdlen := List.length_pos.mpr hde
            omega

/-- Reading at end-of-stream returns nothing and leaves the state
untouched. -/
theorem read_eof_id {δ : Type} (cf : CompressedFile δ) (he : cf.eof = true) (m : Nat) :
    cf.read m = (cf, []) := by
  unfold CompressedFile.read
  rw [if_pos he]

/-- A read of at least one byte that returns nothing has set the
end-of-stream flag (no invariant needed). -/
theorem read_empty_eof {δ : Type} (cf : CompressedFile δ) (n : Nat) (hn : 1 ≤ n)
    (h : (cf.read n).2 = []) : (cf.read n).1.eof = true := by
  obtain ⟨⟨fod⟩, df, d0, c, p, buf0, bp, eofb⟩ := cf
  cases eofb with
  | true =>
    rw [read_eof_id _ rfl]
  | false =>
    unfold CompressedFile.read CompressedFile.readFromBuffer at h ⊢
    simp only [Bool.false_eq_true, if_false, dite_eq_ite] at h ⊢
    by_cases hgt : buf0.length - bp > n
    · rw [if_pos hgt] at h ⊢
      dsimp only at h ⊢
      exfalso
      obtain ⟨ext, hext⟩ := readLoopGrow
        ⟨⟨fod⟩, df, d0, c, p, buf0, bp + n, false⟩
        (n - ((buf0.drop bp).take n).length) ((buf0.drop bp).take n)
      rw [hext] at h
      rcases List.append_eq_nil.mp h with ⟨h1, h2⟩
      rcases List.take_eq_nil_iff.mp h1 with h3 | h3
      · omega
      · have hle : buf0.length ≤ bp := by
          have hl := congrArg List.length h3
          simp only [List.length_drop, List.length_nil] at hl
          omega
        omega
    · rw [if_neg hgt] at h ⊢
      dsimp only at h ⊢
      obtain ⟨ext, hext⟩ := readLoopGrow
        ⟨⟨fod⟩, df, d0, c, p, [], 0, false⟩ (n - (buf0.drop bp).length) (buf0.drop bp)
      rw [hext] at h
      rcases List.append_eq_nil.mp h with ⟨h1, h2⟩
      have hlen0 : (buf0.drop bp).length = 0 := by rw [h1]; rfl
      refine readLoopEmptyEofAux fod.length _ _ _ _ (le_refl _) (by omega) rfl rfl ?_
      rw [hext, h1, h2]
      simp

/-- A read through the active stream that asked for at least one byte and
got nothing leaves the stream exhausted. -/
theorem tf_read_empty {δ : Type} (tf : TransFileObj δ) (n : Nat) (hn : 1 ≤ n)
    (h : (tf.read n).2 = []) : (tf.read n).1.exhausted := by
  cases tf with
  | compressed cf =>
    exact read_empty_eof cf n hn h
  | native f =>
    simp only [TransFileObj.read, TransFileObj.exhausted, LocalFile.read] at h ⊢
    rcases List.take_eq_nil_iff.mp h with h1 | h1
    · omega
    · rw [h]
      simpa using h1
  | stream s =>
    simp only [TransFileObj.read, TransFileObj.exhausted, ByteSource.read] at h ⊢
    rcases List.take_eq_nil_iff.mp h with h1 | h1
    · omega
    · rw [h1]
      simp

/-- Reading an exhausted active stream returns nothing and leaves the
stream unchanged. -/
theorem tf_exhausted_read {δ : Type} (tf : TransFileObj δ) (h : tf.exhausted) (n : Nat) :
    tf.read n = (tf, []) := by
  cases tf with
  | compressed cf =>
    simp only [TransFileObj.read, read_eof_id cf h n]
  | native f =>
    obtain ⟨fd, fp⟩ := f
    simp only [TransFileObj.exhausted] at h
    simp [TransFileObj.read, LocalFile.read, h]
  | stream s =>
    obtain ⟨sd⟩ := s
    simp only [TransFileObj.exhausted] at h
    subst h
    simp [TransFileObj.read, ByteSource.read]

/-- A facade read on an exhausted stream returns nothing and keeps the
stream exhausted. -/
theorem trs_read_exhausted {δ : Type} (t : TransReadSt δ) (h : t.transfile.exhausted)
    (sz : Int) : (t.read sz).2 = [] ∧ (t.read sz).1.transfile.exhausted := by
  unfold TransReadSt.read
  dsimp only
  rw [tf_exhausted_read t.transfile h]
  exact ⟨rfl, h⟩

/-- Every read in a sequence after exhaustion returns the empty result. -/
theorem trs_readSeq_exhausted {δ : Type} :
    ∀ (szs : List Int) (t : TransReadSt δ), t.transfile.exhausted →
      t.readSeq szs = szs.map (fun _ => []) := by
  intro szs
  induction szs with
  | nil => intro t h; rfl
  | cons a as ihs =>
    intro t h
    obtain ⟨h1, h2⟩ := trs_read_exhausted t h a
    unfold TransReadSt.readSeq
    rw [h1, ihs (t.read a).1 h2]
    rfl

/-- A facade read of at least one byte that returned nothing leaves the
active stream exhausted. -/
theorem trs_read_empty {δ : Type} (t : TransReadSt δ) (sz : Int) (hsz : 1 ≤ sz)
    (h : (t.read sz).2 = []) : (t.read sz).1.transfile.exhausted := by
  unfold TransReadSt.read at h ⊢
  rw [if_neg (show ¬ sz < 0 by omega)] at h ⊢
  exact tf_read_empty t.transfile sz.toNat (by omega) h

/-- At end-of-stream the discard loop over a _CompressedFile is inert. -/
theorem fakeLoop_const {δ : Type} (cf : CompressedFile δ) (he : cf.eof = true) (t : Int) :
    fakeSeekLoop (fun c n => CompressedFile.read c n) cf t = (cf, t) := by
  unfold fakeSeekLoop
  split
  · split
    rename_i s' buf hr
    rw [read_eof_id cf he] at hr
    simp only [Prod.mk.injEq] at hr
    obtain ⟨h1, h2⟩ := hr
    rw [dif_pos h2.symm, ← h1]
  · rfl

/-- A successful seek tail whose loop is inert keeps the stream state. -/
theorem fakeSeekRest_state_const {α : Type} (rd : α → Nat → α × List Nat) (s : α)
    (cur np : Int) (r : α × Int) (hl : ∀ t, fakeSeekLoop rd s t = (s, t))
    (h : fakeSeekRest rd s cur np = .ok r) : r.1 = s := by
  unfold fakeSeekRest at h
  by_cases hb : np < cur
  · rw [if_pos hb] at h
    simp at h
  · rw [if_neg hb] at h
    split at h
    rename_i s₁ tr hr
    rw [hl] at hr
    simp only [Prod.mk.injEq] at hr
    obtain ⟨hs, ht⟩ := hr
    by_cases hneg : tr < 0
    · rw [if_pos hneg] at h
      simp at h
    · rw [if_neg hneg] at h
      simp only [Except.ok.injEq] at h
      rw [← h]
      exact hs.symm

/-- A successful _CompressedFile.seek at end-of-stream keeps the flag
set (the emulator's reads all return empty). -/
theorem seek_state_eof {δ : Type} (cf cf' : CompressedFile δ) (off w : Int)
    (he : cf.eof = true) (hok : cf.seek off w = .ok cf') : cf'.eof = true := by
  unfold CompressedFile.seek at hok
  split at hok
  · simp at hok
  · rename_i r heq
    simp only [Except.ok.injEq] at hok
    have hstate : r.1 = cf := by
      unfold fake_seek_forward at heq
      split at heq
      · exact fakeSeekRest_state_const _ _ _ _ _ (fakeLoop_const cf he) heq
      · split at heq
        · exact fakeSeekRest_state_const _ _ _ _ _ (fakeLoop_const cf he) heq
        · simp at heq
    rw [← hok]
    dsimp only
    rw [hstate]
    exact he

/-- C5 amended.  Once a read call requesting at least one byte returns an
empty result, every subsequent read call on the same reader (any sizes,
including negative read-to-end requests) also returns an empty result for
the object's remaining lifetime; and the end-of-stream flag of the buffered
decompressor makes only the one-way transition false to true: a read at
end-of-stream keeps the flag set and returns nothing, and a successful seek
keeps it set as well.  (The original claim, quantifying over all read
calls, is refuted by a read of size 0, which returns an empty result on a
non-exhausted reader; see the counterexample.) -/
theorem C5_eof_stability {δ : Type} (t : TransReadSt δ) (sz : Int) (hsz : 1 ≤ sz)
    (h : (t.read sz).2 = []) :
    (∀ szs : List Int, TransReadSt.readSeq (t.read sz).1 szs = szs.map (fun _ => [])) ∧
    (∀ (cf : CompressedFile δ) (m : Nat), cf.eof = true →
      (cf.read m).1.eof = true ∧ (cf.read m).2 = []) ∧
    (∀ (cf cf' : CompressedFile δ) (off w : Int), cf.eof = true →
      cf.seek off w = .ok cf' → cf'.eof = true) := by
  refine ⟨fun szs => trs_readSeq_exhausted szs _ (trs_read_empty t sz hsz h), ?_, ?_⟩
  · intro cf m he
    rw [read_eof_id cf he]
    exact ⟨he, rfl⟩
  · intro cf cf' off w he hok
    exact seek_state_eof cf cf' off w he hok

/-- C5 counterexample.  The claim as stated fails: on a fresh gzip-like
reader over the one-byte source [7], read(0) returns an empty result, yet
the subsequent read(1) returns the byte 7: an empty result does not imply
end-of-stream when zero bytes were requested. -/
theorem C5_counterexample :
    (c5t.read 0).2 = [] ∧ ((c5t.read 0).1.read 1).2 = [7] := by
  constructor <;>
    simp [c5t, TransReadSt.read, TransFileObj.read, CompressedFile.init,
      CompressedFile.read, CompressedFile.readFromBuffer, CompressedFile.readLoop,
      ByteSource.read, applyDec, idDec]

/-- C5 witness: a read of 5 bytes from an exhausted gzip-like reader
returns empty, and the subsequent reads of sizes 3, 0 and -1 all return
empty. -/
theorem C5_witness :
    ((1 : Int) ≤ 5 ∧ (c5w.read 5).2 = []) ∧
    TransReadSt.readSeq (c5w.read 5).1 [3, 0, -1] = [[], [], []] := by
  have hempty : (c5w.read 5).2 = [] := by
    simp [c5w, TransReadSt.read, TransFileObj.read, CompressedFile.init,
      CompressedFile.read, CompressedFile.readFromBuffer, CompressedFile.readLoop,
      ByteSource.read, applyDec, idDec]
  refine ⟨⟨by omega, hempty⟩, ?_⟩
  have := (C5_eof_stability c5w 5 (by omega) hempty).1 [3, 0, -1]
  simpa using this

/-- C7.  Short-seek behaviour of the forward-seek emulator: over any
well-behaved underlying source (reads hand out successive prefixes of its
remainder `rem`, preserving a state predicate `P`) and for every valid
forward seek (whence SEEK_SET or SEEK_CUR, target at or beyond the current
position), _fake_seek_forward does not raise: it returns ok, the position
being cur + min (target - cur) remaining — exactly the requested target
when the source holds enough bytes, and the lesser position actually
reached (current position plus the bytes discarded) when the source is
exhausted first. -/
theorem C7_short_seek {α : Type} (rd : α → Nat → α × List Nat)
    (rem : α → List Nat) (P : α → Prop)
    (hrd : ∀ (s : α) (n : Nat), P s →
      (rd s n).2 = (rem s).take n ∧ rem (rd s n).1 = (rem s).drop n ∧ P (rd s n).1)
    (s : α) (hP : P s) (cur off w : Int) (hw : w = SEEK_SET ∨ w = SEEK_CUR)
    (hfwd : cur ≤ if w = SEEK_SET then off else cur + off) :
    fake_seek_forward rd s cur off w
      = .ok ((fakeSeekLoop rd s ((if w = SEEK_SET then off else cur + off) - cur)).1,
             cur + min ((if w = SEEK_SET then off else cur + off) - cur)
               ((rem s).length : Int)) ∧
    ((if w = SEEK_SET then off else cur + off) - cur ≤ ((rem s).length : Int) →
      cur + min ((if w = SEEK_SET then off else cur + off) - cur) ((rem s).length : Int)
        = if w = SEEK_SET then off else cur + off) := by
  obtain ⟨h1, h2, h3⟩ := fakeSeekRest_rem rd rem P hrd s hP cur _ hfwd
  refine ⟨?_, ?_⟩
  · rw [fake_seek_forward_eq_rest rd s cur off w hw]
    exact h1
  · intro hle
    omega

/-- C7 witness: seeking from 0 to 5 (SEEK_SET) over a 3-byte raw source
does not raise and stops at the actual position 3. -/
theorem C7_witness :
    ((0 : Int) ≤ if (SEEK_SET : Int) = SEEK_SET then 5 else 0 + 5) ∧
    fake_seek_forward ByteSource.read ⟨[1, 2, 3]⟩ 0 5 SEEK_SET = .ok (⟨[]⟩, 3) := by
  have hrd : ∀ (s : ByteSource) (n : Nat), (fun _ : ByteSource => True) s →
      ((ByteSource.read s n).2 = ((fun s : ByteSource => s.data) s).take n ∧
       (fun s : ByteSource => s.data) (ByteSource.read s n).1
          = ((fun s : ByteSource => s.data) s).drop n ∧
       (fun _ : ByteSource => True) (ByteSource.read s n).1) :=
    fun s n _ => ⟨rfl, rfl, trivial⟩
  have h := (C7_short_seek ByteSource.read (fun s => s.data) (fun _ => True) hrd
    ⟨[1, 2, 3]⟩ trivial 0 5 SEEK_SET (Or.inl rfl) (by simp [SEEK_SET])).1
  have hloop := (fakeSeekLoop_rem ByteSource.read (fun s => s.data) (fun _ => True) hrd
    ⟨[1, 2, 3]⟩ ((if (SEEK_SET : Int) = SEEK_SET then 5 else 0 + 5) - 0) trivial
    (by simp [SEEK_SET])).2.1
  refine ⟨by simp [SEEK_SET], ?_⟩
  rw [h]
  have hs : (fakeSeekLoop ByteSource.read ⟨[1, 2, 3]⟩
      ((if (SEEK_SET : Int) = SEEK_SET then 5 else 0 + 5) - 0)).1 = (⟨[]⟩ : ByteSource) := by
    rcases hE : (fakeSeekLoop ByteSource.read ⟨[1, 2, 3]⟩
      ((if (SEEK_SET : Int) = SEEK_SET then 5 else 0 + 5) - 0)).1 with ⟨d⟩
    rw [hE] at hloop
    simp [SEEK_SET] at hloop
    rw [hloop]
  rw [hs]
  simp [SEEK_SET]

/-- C10.  The forward-seek emulator never overshoots: provided each
underlying read call returns at most the number of bytes requested, every
valid forward seek (whence SET or CUR, target at or beyond the current
position) succeeds, the residual to_read count after the discard loop is
non-negative — so the internal "seeked too far" error branch is
unreachable — and the returned position lies between the starting position
and the requested target inclusive. -/
theorem C10_no_overshoot {α : Type} (rd : α → Nat → α × List Nat)
    (hle : ∀ (s : α) (n : Nat), (rd s n).2.length ≤ n) (s : α) (cur off w : Int)
    (hw : w = SEEK_SET ∨ w = SEEK_CUR)
    (hfwd : cur ≤ if w = SEEK_SET then off else cur + off) :
    0 ≤ (fakeSeekLoop rd s ((if w = SEEK_SET then off else cur + off) - cur)).2 ∧
    fake_seek_forward rd s cur off w
      = .ok ((fakeSeekLoop rd s ((if w = SEEK_SET then off else cur + off) - cur)).1,
             (if w = SEEK_SET then off else cur + off)
               - (fakeSeekLoop rd s ((if w = SEEK_SET then off else cur + off) - cur)).2) ∧
    cur ≤ (if w = SEEK_SET then off else cur + off)
            - (fakeSeekLoop rd s ((if w = SEEK_SET then off else cur + off) - cur)).2 ∧
    (if w = SEEK_SET then off else cur + off)
            - (fakeSeekLoop rd s ((if w = SEEK_SET then off else cur + off) - cur)).2
      ≤ (if w = SEEK_SET then off else cur + off) := by
  obtain ⟨h1, h2⟩ := fakeSeekRest_le_ok rd hle s cur _ hfwd
  have h3 := fakeSeekLoop_le rd s ((if w = SEEK_SET then off else cur + off) - cur)
  refine ⟨h2, ?_, by omega, by omega⟩
  rw [fake_seek_forward_eq_rest rd s cur off w hw]
  exact h1

/-- C10 witness: a SEEK_CUR seek from position 1 by 4 over a 2-byte source
returns ok at a position between 1 and the target 5 (namely 3). -/
theorem C10_witness :
    ((1 : Int) ≤ if (SEEK_CUR : Int) = SEEK_SET then 4 else 1 + 4) ∧
    fake_seek_forward ByteSource.read ⟨[1, 2]⟩ 1 4 SEEK_CUR = .ok (⟨[]⟩, 3) := by
  have hrd : ∀ (s : ByteSource) (n : Nat), (fun _ : ByteSource => True) s →
      ((ByteSource.read s n).2 = ((fun s : ByteSource => s.data) s).take n ∧
       (fun s : ByteSource => s.data) (ByteSource.read s n).1
          = ((fun s : ByteSource => s.data) s).drop n ∧
       (fun _ : ByteSource => True) (ByteSource.read s n).1) :=
    fun s n _ => ⟨rfl, rfl, trivial⟩
  have hle : ∀ (s : ByteSource) (n : Nat), (ByteSource.read s n).2.length ≤ n := by
    intro s n
    simp [ByteSource.read]
  have h := (C10_no_overshoot ByteSource.read hle ⟨[1, 2]⟩ 1 4 SEEK_CUR (Or.inr rfl)
    (by simp [SEEK_CUR, SEEK_SET])).2.1
  have hloop := fakeSeekLoop_rem ByteSource.read (fun s => s.data) (fun _ => True) hrd
    ⟨[1, 2]⟩ ((if (SEEK_CUR : Int) = SEEK_SET then 4 else 1 + 4) - 1) trivial
    (by simp [SEEK_CUR, SEEK_SET])
  refine ⟨by simp [SEEK_CUR, SEEK_SET], ?_⟩
  rw [h]
  have hs : (fakeSeekLoop ByteSource.read ⟨[1, 2]⟩
      ((if (SEEK_CUR : Int) = SEEK_SET then 4 else 1 + 4) - 1)).1 = (⟨[]⟩ : ByteSource) := by
    rcases hE : (fakeSeekLoop ByteSource.read ⟨[1, 2]⟩
      ((if (SEEK_CUR : Int) = SEEK_SET then 4 else 1 + 4) - 1)).1 with ⟨d⟩
    have h2 := hloop.2.1
    rw [hE] at h2
    simp [SEEK_CUR, SEEK_SET] at h2
    rw [h2]
  have hv := hloop.1
  rw [hs, hv]
  simp [SEEK_CUR, SEEK_SET]

/-- C4 amended.  Every seek that goes through the module's forward-seek
emulation rejects a target strictly before the respective current position
with the module's backward-seek Error, never clamping: (a) TransRead.seek
whenever the forced-emulation flag is set or the active stream exposes no
native seek; (b) _CompressedFile.seek always, against its own position.
A reader whose active stream is a native seekable local file instead
delegates to the stream's own seek, whose semantics permit moving backward
— refuting the claim's universal form (see the counterexample). -/
theorem C4_backward_rejected {δ : Type} (t : TransReadSt δ) (cf : CompressedFile δ)
    (off w : Int) (hw : w = SEEK_SET ∨ w = SEEK_CUR) :
    ((t.force_fake_seek = true ∨ t.transfile.nativeSeek off w = none) →
      (if w = SEEK_SET then off else t.pos + off) < t.pos →
      t.seek off w
        = .error (.backwardSeek t.pos (if w = SEEK_SET then off else t.pos + off))) ∧
    ((if w = SEEK_SET then off else cf.pos + off) < cf.pos →
      cf.seek off w
        = .error (.backwardSeek cf.pos (if w = SEEK_SET then off else cf.pos + off))) := by
  constructor
  · intro hdisj hlt
    unfold TransReadSt.seek
    have hfake : (fake_seek_forward TransFileObj.read t.transfile t.pos off w).map
        (fun p => { t with transfile := p.1, pos := p.2 })
        = .error (.backwardSeek t.pos (if w = SEEK_SET then off else t.pos + off)) := by
      rw [fake_seek_forward_eq_rest _ _ _ _ _ hw,
        fakeSeekRest_backward _ _ _ _ hlt]
      rfl
    rcases hdisj with hff | hns
    · rw [hff] at hfake ⊢
      cases hns : t.transfile.nativeSeek off w <;> simpa using hfake
    · rw [hns]
      cases hff : t.force_fake_seek <;> rw [hff] at hfake <;> simpa using hfake
  · intro hlt
    unfold CompressedFile.seek
    rw [fake_seek_forward_eq_rest _ _ _ _ _ hw,
      fakeSeekRest_backward _ _ _ _ hlt]

/-- C4 counterexample.  A plain local-file reader that has read two bytes:
its current position (tell) is 2, yet seek(0, SEEK_SET) — a strictly
backward seek — succeeds via the file's native seek instead of failing with
the backward-seek Error. -/
theorem C4_counterexample :
    seekOk (TransReadSt.seek ((c4t.read 2).1) 0 SEEK_SET) = true ∧
    ((c4t.read 2).1.tell) = 2 ∧ (0 : Int) < 2 := by
  refine ⟨?_, ?_, by omega⟩ <;>
    simp [c4t, TransReadSt.read, TransReadSt.seek, TransReadSt.tell,
      TransFileObj.read, TransFileObj.nativeSeek, TransFileObj.nativeTell,
      LocalFile.read, LocalFile.seek, LocalFile.tell, seekOk, Except.map,
      SEEK_SET, SEEK_CUR, SEEK_END]

/-- C4 witness: a URL-stream reader at position 1 rejects seek(0, SEEK_SET)
with the backward-seek Error, and a _CompressedFile at position 2 rejects
it as well. -/
theorem C4_witness :
    (((SEEK_SET : Int) = SEEK_SET ∨ (SEEK_SET : Int) = SEEK_CUR) ∧
     (c4w.force_fake_seek = true ∨ c4w.transfile.nativeSeek 0 SEEK_SET = none) ∧
     ((if (SEEK_SET : Int) = SEEK_SET then 0 else c4w.pos + 0) < c4w.pos) ∧
     ((if (SEEK_SET : Int) = SEEK_SET then 0 else cf4.pos + 0) < cf4.pos)) ∧
    c4w.seek 0 SEEK_SET = .error (.backwardSeek 1 0) ∧
    cf4.seek 0 SEEK_SET = .error (.backwardSeek 2 0) := by
  refine ⟨⟨Or.inl rfl, Or.inr (by simp [c4w, TransFileObj.nativeSeek]),
    by simp [c4w], by simp [cf4]⟩, ?_, ?_⟩
  · have h := (C4_backward_rejected c4w cf4 0 SEEK_SET (Or.inl rfl)).1
      (Or.inr (by simp [c4w, TransFileObj.nativeSeek])) (by simp [c4w])
    simpa [c4w] using h
  · have h := (C4_backward_rejected c4w cf4 0 SEEK_SET (Or.inl rfl)).2 (by simp [cf4])
    simpa [cf4] using h

theorem drop_take_drop (l : List Nat) (p n : Nat) :
    l.drop (p + min n (l.length - p)) = l.drop (p + n) := by
  by_cases h : n ≤ l.length - p
  · rw [min_eq_left h]
  · rw [min_eq_right (by omega)]
    rw [List.drop_eq_nil_of_le (by omega), List.drop_eq_nil_of_le (by omega)]

/-- Wrapper of read_spec in the shape the seek-emulator lemmas expect. -/
theorem read_spec_triple {δ : Type} :
    ∀ (cf : CompressedFile δ) (n : Nat), cf.inv →
      ((cf.read n).2 = cf.remOut.take n ∧ (cf.read n).1.remOut = cf.remOut.drop n ∧
       (cf.read n).1.inv) :=
  fun cf n hinv =>
    ⟨(read_spec cf hinv n).1, (read_spec cf hinv n).2.1, (read_spec cf hinv n).2.2.2.1⟩

/-- Every active stream is well-behaved: reads hand out successive
prefixes of its remainder, preserving the stream invariant. -/
theorem tf_read_spec {δ : Type} :
    ∀ (tf : TransFileObj δ) (n : Nat), tf.invT →
      ((tf.read n).2 = tf.rem.take n ∧ (tf.read n).1.rem = tf.rem.drop n ∧
       (tf.read n).1.invT) := by
  intro tf n hinv
  cases tf with
  | compressed cf =>
    exact ⟨(read_spec cf hinv n).1, (read_spec cf hinv n).2.1, (read_spec cf hinv n).2.2.2.1⟩
  | native f =>
    obtain ⟨fd, fp⟩ := f
    refine ⟨rfl, ?_, trivial⟩
    simp only [TransFileObj.read, TransFileObj.rem, LocalFile.read]
    rw [List.length_take, List.length_drop, List.drop_drop, drop_take_drop]
  | stream s =>
    exact ⟨rfl, rfl, trivial⟩

/-- The position counter plays no role in the pending output or the
invariant of a _CompressedFile. -/
theorem remOut_pos_update {δ : Type} (cf : CompressedFile δ) (p : Int) :
    ({ cf with pos := p } : CompressedFile δ).remOut = cf.remOut := rfl

theorem inv_pos_update {δ : Type} (cf : CompressedFile δ) (p : Int) :
    ({ cf with pos := p } : CompressedFile δ).inv ↔ cf.inv := Iff.rfl

/-- C3.  Forward-seek correctness: on a freshly constructed reader whose
logical stream (the active stream's remaining bytes) has length L, for
every 0 ≤ k ≤ L, seek(k, SEEK_SET) succeeds and a subsequent read(L - k)
returns exactly the bytes obtained by reading the whole stream from the
start and discarding its first k bytes.  This covers all three kinds of
active stream the module builds: a _CompressedFile (native-seek delegation
into _CompressedFile.seek, which emulates), a plain seekable local file
(native seek), and a non-seekable URL stream (facade-level emulation), as
well as the forced-emulation flag. -/
theorem C3_forward_seek {δ : Type} (t : TransReadSt δ) (hf : t.fresh) (k : Nat)
    (hk : k ≤ t.transfile.rem.length) :
    (t.seek (k : Int) SEEK_SET).map
        (fun t' => (t'.read ((t.transfile.rem.length : Int) - (k : Int))).2)
      = .ok ((t.read (t.transfile.rem.length : Int)).2.drop k) := by
  obtain ⟨nm, szf, isc, isu, ffs, tpos, tf⟩ := t
  obtain ⟨hpos, hvar⟩ := hf
  dsimp only at hpos hvar hk ⊢
  subst hpos
  have hinvT : tf.invT := by
    cases tf with
    | compressed cf => exact hvar.1
    | native f => trivial
    | stream s => trivial
  have hRHS : (TransReadSt.read ⟨nm, szf, isc, isu, ffs, 0, tf⟩ (tf.rem.length : Int)).2
      = tf.rem := by
    unfold TransReadSt.read
    dsimp only
    rw [if_neg (by omega)]
    rw [(tf_read_spec tf ((tf.rem.length : Int)).toNat hinvT).1]
    simp
  rw [hRHS]
  have hfake : ∀ b : Bool,
      Except.map (fun t' => (TransReadSt.read t' ((tf.rem.length : Int) - (k : Int))).2)
        (Except.map
          (fun p => (⟨nm, szf, isc, isu, b, p.2, p.1⟩ : TransReadSt δ))
          (fake_seek_forward TransFileObj.read tf 0 (k : Int) SEEK_SET))
      = .ok (tf.rem.drop k) := by
    intro b
    obtain ⟨hr1, hr2, hr3⟩ := fakeSeekRest_rem TransFileObj.read TransFileObj.rem
      TransFileObj.invT tf_read_spec tf hinvT 0 (k : Int) (by omega)
    rw [fake_seek_forward_eq_rest _ _ _ _ _ (Or.inl rfl), if_pos rfl, hr1]
    simp only [Except.map]
    unfold TransReadSt.read
    dsimp only
    rw [if_neg (by omega)]
    rw [(tf_read_spec (fakeSeekLoop TransFileObj.read tf ((k : Int) - 0)).1 _ hr3).1, hr2]
    have htn : ((k : Int) - 0).toNat = k := by omega
    rw [htn]
    have hlen : (tf.rem.drop k).length
        ≤ ((tf.rem.length : Int) - (k : Int)).toNat := by
      rw [List.length_drop]
      omega
    rw [List.take_of_length_le hlen]
  unfold TransReadSt.seek
  dsimp only
  cases ffs with
  | true =>
    cases hns : tf.nativeSeek (k : Int) SEEK_SET <;> simpa using hfake true
  | false =>
    cases tf with
    | stream s =>
      simpa [TransFileObj.nativeSeek] using hfake false
    | native f =>
      obtain ⟨fd, fp⟩ := f
      dsimp only at hvar
      subst hvar
      dsimp only [TransFileObj.rem, TransFileObj.nativeSeek, List.drop_zero] at hk ⊢
      have hseek : LocalFile.seek ⟨fd, 0⟩ (k : Int) SEEK_SET
          = .ok (⟨fd, k⟩ : LocalFile) := by
        unfold LocalFile.seek
        rw [if_pos (Or.inl rfl)]
        dsimp only
        rw [if_pos rfl, if_neg (by omega)]
        simp
      rw [hseek]
      simp only [Except.map]
      unfold TransReadSt.read
      dsimp only
      rw [if_neg (by omega)]
      simp only [TransFileObj.read, LocalFile.read]
      congr 1
      have hlen : (fd.drop k).length ≤ ((fd.length : Int) - (k : Int)).toNat := by
        rw [List.length_drop]
        omega
      rw [List.take_of_length_le hlen]
    | compressed cf =>
      obtain ⟨hcinv, hcpos⟩ := hvar
      dsimp only [TransFileObj.rem, TransFileObj.nativeSeek] at hk ⊢
      obtain ⟨hrc1, hrc2, hrc3⟩ := fakeSeekRest_rem (fun c n => CompressedFile.read c n)
        CompressedFile.remOut CompressedFile.inv read_spec_triple cf hcinv 0 (k : Int)
        (by omega)
      set cf1 := (fakeSeekLoop (fun c n => CompressedFile.read c n) cf ((k : Int) - 0)).1
        with hcf1
      set pv : Int := 0 + min ((k : Int) - 0) ((cf.remOut.length : Nat) : Int) with hpv
      have hcseek : cf.seek (k : Int) SEEK_SET = .ok { cf1 with pos := pv } := by
        unfold CompressedFile.seek
        rw [hcpos, fake_seek_forward_eq_rest _ _ _ _ _ (Or.inl rfl), if_pos rfl, hrc1]
      rw [hcseek]
      simp only [Except.map]
      unfold TransReadSt.read
      dsimp only
      rw [if_neg (by omega)]
      simp only [TransFileObj.read]
      have hinv' : ({ cf1 with pos := pv } : CompressedFile δ).inv := hrc3
      rw [(read_spec _ hinv' ((((cf.remOut.length : Nat) : Int) - (k : Int)).toNat)).1]
      have hrem' : ({ cf1 with pos := pv } : CompressedFile δ).remOut
          = cf.remOut.drop k := by
        rw [remOut_pos_update, hrc2]
        simp
      rw [hrem']
      have hlen : (cf.remOut.drop k).length
          ≤ ((cf.remOut.length : Int) - (k : Int)).toNat := by
        rw [List.length_drop]
        omega
      rw [List.take_of_length_le hlen]

/-- C3 witness: on the fresh gzip-like reader over [10, 20, 30],
seek(1, SEEK_SET) followed by a read of the remaining length returns the
full stream minus its first byte. -/
theorem C3_witness :
    (c3t.fresh ∧ 1 ≤ c3t.transfile.rem.length) ∧
    (c3t.seek (1 : Int) SEEK_SET).map
        (fun t' => (t'.read ((c3t.transfile.rem.length : Int) - ((1 : Nat) : Int))).2)
      = .ok ((c3t.read (c3t.transfile.rem.length : Int)).2.drop 1) := by
  have hfresh : c3t.fresh := by
    refine ⟨rfl, ?_, rfl⟩
    refine ⟨?_, ?_, ?_⟩ <;> simp [CompressedFile.init]
  have hk : 1 ≤ c3t.transfile.rem.length := by
    simp [c3t, TransFileObj.rem, CompressedFile.remOut, CompressedFile.init,
      chunkify, decompAll, applyDec, idDec]
  exact ⟨⟨hfresh, hk⟩, C3_forward_seek c3t hfresh 1 hk⟩

/-- C6.  _open_compressed_file classifies purely by the resource name's
suffix, case-sensitively (str.endswith) and in source order: names ending
in .tar.gz, .tar.bz2 or .tgz open the streaming tar reader and expose the
first archive member's stream with that member's declared size; otherwise
.gz wires a gzip decompressor with the default chunk size of 128 KiB;
otherwise .bz2 wires a bzip2 decompressor with chunk size 128; every other
name is plain pass-through, with the declared size taken from fstat exactly
when the source is a local file (not a URL). -/
theorem C6_suffix_classification {δ : Type} (name : String) (is_url : Bool)
    (fo : ByteSource) (libs : Libs δ) :
    ((endswith name ".tar.gz" || endswith name ".tar.bz2" || endswith name ".tgz") = true →
      ∀ m, libs.tarNext fo = .ok m →
        open_compressed_file name is_url fo libs
          = .ok ⟨.tarMember m, some m.size, true⟩) ∧
    ((endswith name ".tar.gz" || endswith name ".tar.bz2" || endswith name ".tgz") = false →
      endswith name ".gz" = true →
      ∀ (d0 : δ) (f : δ → List Nat → δ × List Nat), libs.gzNew = .ok (d0, f) →
        open_compressed_file name is_url fo libs
          = .ok ⟨.transfile (.compressed
              { file_obj := fo, decompress_func := some f, dstate := d0,
                chunk_size := 128 * 1024, pos := 0, buffer := [], buffer_pos := 0,
                eof := false }), none, true⟩) ∧
    ((endswith name ".tar.gz" || endswith name ".tar.bz2" || endswith name ".tgz") = false →
      endswith name ".gz" = false → endswith name ".bz2" = true →
      ∀ (d0 : δ) (f : δ → List Nat → δ × List Nat), libs.bz2New = .ok (d0, f) →
        open_compressed_file name is_url fo libs
          = .ok ⟨.transfile (.compressed
              { file_obj := fo, decompress_func := some f, dstate := d0,
                chunk_size := 128, pos := 0, buffer := [], buffer_pos := 0,
                eof := false }), none, true⟩) ∧
    ((endswith name ".tar.gz" || endswith name ".tar.bz2" || endswith name ".tgz") = false →
      endswith name ".gz" = false → endswith name ".bz2" = false →
      open_compressed_file name is_url fo libs
        = .ok ⟨.transfile (if is_url then .stream fo else .native ⟨fo.data, 0⟩),
               if is_url then none else some libs.fstatSize, false⟩) := by
  refine ⟨?_, ?_, ?_, ?_⟩
  · intro htar m hm
    unfold open_compressed_file
    rw [if_pos htar, hm]
  · intro htar hgz d0 f hm
    unfold open_compressed_file
    rw [if_neg (by rw [htar]; simp), if_pos hgz, hm]
    rfl
  · intro htar hgz hbz d0 f hm
    unfold open_compressed_file
    rw [if_neg (by rw [htar]; simp), if_neg (by rw [hgz]; simp), if_pos hbz, hm]
    rfl
  · intro htar hgz hbz
    unfold open_compressed_file
    rw [if_neg (by rw [htar]; simp), if_neg (by rw [hgz]; simp),
      if_neg (by rw [hbz]; simp)]

/-- C6 witness: opening "x.bz2" locally wires a bzip2 _CompressedFile with
chunk size 128 and no declared size. -/
theorem C6_witness :
    (((endswith "x.bz2" ".tar.gz" || endswith "x.bz2" ".tar.bz2"
        || endswith "x.bz2" ".tgz") = false) ∧
     endswith "x.bz2" ".gz" = false ∧ endswith "x.bz2" ".bz2" = true ∧
     libsW.bz2New = .ok ((), idDec)) ∧
    open_compressed_file "x.bz2" false ⟨[9]⟩ libsW
      = .ok ⟨.transfile (.compressed
          { file_obj := ⟨[9]⟩, decompress_func := some idDec, dstate := (),
            chunk_size := 128, pos := 0, buffer := [], buffer_pos := 0,
            eof := false }), none, true⟩ :=
  ⟨⟨by decide, by decide, by decide, rfl⟩,
   (C6_suffix_classification "x.bz2" false ⟨[9]⟩ libsW).2.2.1 (by decide) (by decide)
     (by decide) () idDec rfl⟩

/-- C9 amended.  Inside _open_compressed_file's try block, a library
initialisation failure is wrapped into the module's typed Error — carrying
the offending name and the cause — exactly when the raised exception is an
IOError (the only class the except clause catches); an exception of any
other class, such as tarfile.ReadError on malformed headers, propagates to
the caller unwrapped. -/
theorem C9_ioerror_wrapping {δ : Type} (name : String) (is_url : Bool)
    (fo : ByteSource) (libs : Libs δ) (msg : String) :
    (((endswith name ".tar.gz" || endswith name ".tar.bz2" || endswith name ".tgz") = true) →
      (libs.tarNext fo = .error (.ioError msg) →
        open_compressed_file name is_url fo libs = .error (.moduleError name msg)) ∧
      (libs.tarNext fo = .error (.libError msg) →
        open_compressed_file name is_url fo libs = .error (.raw (.libError msg)))) ∧
    (((endswith name ".tar.gz" || endswith name ".tar.bz2" || endswith name ".tgz") = false) →
      endswith name ".gz" = true →
      (libs.gzNew = .error (.ioError msg) →
        open_compressed_file name is_url fo libs = .error (.moduleError name msg)) ∧
      (libs.gzNew = .error (.libError msg) →
        open_compressed_file name is_url fo libs = .error (.raw (.libError msg)))) ∧
    (((endswith name ".tar.gz" || endswith name ".tar.bz2" || endswith name ".tgz") = false) →
      endswith name ".gz" = false → endswith name ".bz2" = true →
      (libs.bz2New = .error (.ioError msg) →
        open_compressed_file name is_url fo libs = .error (.moduleError name msg)) ∧
      (libs.bz2New = .error (.libError msg) →
        open_compressed_file name is_url fo libs = .error (.raw (.libError msg)))) := by
  refine ⟨?_, ?_, ?_⟩
  · intro htar
    constructor <;> intro hm <;>
      · unfold open_compressed_file
        rw [if_pos htar, hm]
  · intro htar hgz
    constructor <;> intro hm <;>
      · unfold open_compressed_file
        rw [if_neg (by rw [htar]; simp), if_pos hgz, hm]
  · intro htar hgz hbz
    constructor <;> intro hm <;>
      · unfold open_compressed_file
        rw [if_neg (by rw [htar]; simp), if_neg (by rw [hgz]; simp), if_pos hbz, hm]

/-- C9 counterexample.  With a tar library whose initialisation raises the
non-IOError tarfile.ReadError on malformed headers — its actual behaviour
in the Python standard library — opening "a.tar.gz" does not fail with the
module's typed Error: the library exception propagates raw, uncaught by the
except IOError clause. -/
theorem C9_counterexample :
    open_compressed_file "a.tar.gz" false ⟨[0]⟩ libsBad
      = .error (.raw (.libError "truncated header")) := by
  rfl

/-- C9 witness for the amended claim: an IOError from tar initialisation is
wrapped into the module Error carrying the name and the cause, while a
library exception propagates raw. -/
theorem C9_witness :
    ((endswith "b.tgz" ".tar.gz" || endswith "b.tgz" ".tar.bz2"
        || endswith "b.tgz" ".tgz") = true ∧
     libsIO.tarNext ⟨[]⟩ = .error (.ioError "io fail") ∧
     libsBad.tarNext ⟨[]⟩ = .error (.libError "truncated header")) ∧
    open_compressed_file "b.tgz" false ⟨[]⟩ libsIO
      = .error (.moduleError "b.tgz" "io fail") ∧
    open_compressed_file "b.tgz" false ⟨[]⟩ libsBad
      = .error (.raw (.libError "truncated header")) :=
  ⟨⟨by decide, rfl, rfl⟩,
   ((C9_ioerror_wrapping "b.tgz" false ⟨[]⟩ libsIO "io fail").1 (by decide)).1 rfl,
   ((C9_ioerror_wrapping "b.tgz" false ⟨[]⟩ libsBad "truncated header").1 (by decide)).2 rfl⟩

/-- A successful emulated forward seek never lands before the starting
position, whatever the underlying read function does. -/
theorem fake_seek_ok_ge {α : Type} (rd : α → Nat → α × List Nat) (s : α)
    (cur off w : Int) (s' : α) (p : Int)
    (h : fake_seek_forward rd s cur off w = .ok (s', p)) : cur ≤ p := by
  unfold fake_seek_forward at h
  by_cases h1 : w = SEEK_SET
  · rw [if_pos h1] at h
    exact (fakeSeekRest_ok_bounds rd s cur off s' p h).1
  · rw [if_neg h1] at h
    by_cases h2 : w = SEEK_CUR
    · rw [if_pos h2] at h
      exact (fakeSeekRest_ok_bounds rd s cur (cur + off) s' p h).1
    · rw [if_neg h2] at h
      exact absurd h (by simp)

/-- Per-operation position accounting of the facade: a successful step
moves the counter forward by exactly the bytes returned plus the bytes a
facade-level emulated seek discarded; a delegated seek leaves the counter
untouched. -/
theorem stepAcc_pos {δ : Type} (t : TransReadSt δ) (op : TROp)
    (t1 : TransReadSt δ) (r1 o1 d1 : Nat)
    (h : t.stepAcc op = .ok (t1, r1, o1, d1)) :
    t1.pos = t.pos + (r1 : Int) + (o1 : Int) := by
  cases op with
  | read sz =>
    simp only [TransReadSt.stepAcc, Except.ok.injEq, Prod.mk.injEq] at h
    obtain ⟨h1, h2, h3, _⟩ := h
    subst h1
    subst h2
    subst h3
    simp [TransReadSt.read]
  | seek off w =>
    simp only [TransReadSt.stepAcc] at h
    split at h
    · rename_i r hff hns
      cases r with
      | error e => simp [Except.map] at h
      | ok tf' =>
        simp only [Except.map, Except.ok.injEq, Prod.mk.injEq] at h
        obtain ⟨h1, h2, h3, _⟩ := h
        subst h1
        subst h2
        subst h3
        simp
    · cases hE : fake_seek_forward TransFileObj.read t.transfile t.pos off w with
      | error e =>
        rw [hE] at h
        simp [Except.map] at h
      | ok p =>
        rw [hE] at h
        simp only [Except.map, Except.ok.injEq, Prod.mk.injEq] at h
        obtain ⟨h1, h2, h3, _⟩ := h
        have hge := fake_seek_ok_ge TransFileObj.read t.transfile t.pos off w p.1 p.2
          (by rw [hE])
        subst h1
        subst h2
        subst h3
        show p.2 = t.pos + (((0 : Nat) : Int)) + (((p.2 - t.pos).toNat : Nat) : Int)
        omega

/-- Accumulated position accounting along a successful run: the final
counter is the starting counter plus all bytes returned plus all bytes
discarded by facade-level emulated seeks. -/
theorem runAccPosAux {δ : Type} :
    ∀ (ops : List TROp) (t t' : TransReadSt δ) (r o d : Nat),
      t.runAcc ops = .ok (t', r, o, d) → t'.pos = t.pos + (r : Int) + (o : Int) := by
  intro ops
  induction ops with
  | nil =>
    intro t t' r o d h
    unfold TransReadSt.runAcc at h
    simp only [Except.ok.injEq, Prod.mk.injEq] at h
    obtain ⟨h1, h2, h3, _⟩ := h
    subst h1
    subst h2
    subst h3
    simp
  | cons op ops ih =>
    intro t t' r o d h
    unfold TransReadSt.runAcc at h
    split at h
    · exact absurd h (by simp)
    · rename_i t1 r1 o1 d1 heq
      split at h
      · exact absurd h (by simp)
      · rename_i t2 r2 o2 d2 heq2
        simp only [Except.ok.injEq, Prod.mk.injEq] at h
        obtain ⟨h1, h2, h3, _⟩ := h
        subst h1
        subst h2
        subst h3
        have hstep := stepAcc_pos t op t1 r1 o1 d1 heq
        have hrec := ih t1 t2 r2 o2 d2 heq2
        push_cast
        push_cast at hstep hrec
        omega

/-- C8.  Position-counter accounting, corrected: along every successful
sequence of read and seek operations the facade's position counter is
monotonically non-decreasing and equals its starting value plus the total
bytes returned by reads plus the bytes discarded by facade-level emulated
seeks — but not the bytes discarded inside a delegated _CompressedFile
seek, which the facade counter ignores. -/
theorem C8_position_accounting {δ : Type} (t : TransReadSt δ) (ops : List TROp)
    (t' : TransReadSt δ) (r dOwn dDel : Nat)
    (h : t.runAcc ops = .ok (t', r, dOwn, dDel)) :
    t'.pos = t.pos + (r : Int) + (dOwn : Int) ∧ t.pos ≤ t'.pos := by
  have he := runAccPosAux ops t t' r dOwn dDel h
  exact ⟨he, by omega⟩

set_option maxRecDepth 8192 in
/-- C8 counterexample.  On a gzip-backed reader the facade delegates seek
to _CompressedFile.seek without updating its own counter: after read(1)
and seek(2, SEEK_SET) one byte was returned and one byte was discarded by
the delegated emulated seek, yet the facade counter reads 1, not the
claimed total 1 + (0 + 1) of bytes returned plus bytes discarded by
emulated seeks. -/
theorem C8_counterexample :
    accView (c8t.runAcc [TROp.read 1, TROp.seek 2 SEEK_SET]) = some (1, 1, 0, 1) ∧
    (1 : Int) ≠ (((1 + (0 + 1) : Nat)) : Int) := by
  refine ⟨?_, by decide⟩
  have hstep1 : c8t.stepAcc (TROp.read 1) = .ok (c8tA, 1, 0, 0) := by
    simp [c8t, c8tA, cfA, TransReadSt.stepAcc, TransReadSt.read, TransFileObj.read,
      CompressedFile.init, CompressedFile.read, CompressedFile.readFromBuffer,
      CompressedFile.readLoop, ByteSource.read, applyDec, idDec]
  have hinv : cfA.inv := by
    refine ⟨?_, ?_, ?_⟩ <;> simp [cfA, CompressedFile.inv]
  have hrem : cfA.remOut = [2] := by
    simp [cfA, CompressedFile.remOut, decompAll, chunkify, applyDec, idDec]
  obtain ⟨hr1, _, _⟩ := fakeSeekRest_rem (fun c n => CompressedFile.read c n)
    CompressedFile.remOut CompressedFile.inv read_spec_triple cfA hinv 1 2 (by omega)
  set cfL := (fakeSeekLoop (fun c n => CompressedFile.read c n) cfA ((2 : Int) - 1)).1
    with hcfL
  have hpv : (1 : Int) + min ((2 : Int) - 1) ((cfA.remOut.length : Nat) : Int) = 2 := by
    rw [hrem]
    norm_num
  rw [hpv] at hr1
  have hseek : cfA.seek 2 SEEK_SET = .ok { cfL with pos := 2 } := by
    unfold CompressedFile.seek
    rw [show cfA.pos = (1 : Int) from rfl,
      fake_seek_forward_eq_rest _ _ _ _ _ (Or.inl rfl), if_pos rfl, hr1]
  have hstep2 : c8tA.stepAcc (TROp.seek 2 SEEK_SET)
      = .ok ({ c8tA with transfile := .compressed { cfL with pos := 2 } }, 0, 0, 1) := by
    simp only [TransReadSt.stepAcc, c8tA, TransFileObj.nativeSeek, hseek, Except.map,
      TransFileObj.emuPos]
    norm_num [cfA]
  have hrun : c8t.runAcc [TROp.read 1, TROp.seek 2 SEEK_SET]
      = .ok ({ c8tA with transfile := .compressed { cfL with pos := 2 } }, 1, 0, 1) := by
    simp only [TransReadSt.runAcc, hstep1, hstep2]
  rw [hrun]
  simp [accView, c8tA]

/-- C8 witness: on the URL-backed reader over [9, 8, 7], read(1) followed
by the facade-emulated seek(3, SEEK_SET) returns one byte and discards
two; the accounting theorem instantiated there gives the final counter
3 = 0 + 1 + 2 and its monotonicity. -/
theorem C8_witness :
    c8w.runAcc [TROp.read 1, TROp.seek 3 SEEK_SET] = .ok (c8res, 1, 2, 0) ∧
    (c8res.pos = c8w.pos + ((1 : Nat) : Int) + ((2 : Nat) : Int) ∧
      c8w.pos ≤ c8res.pos) := by
  have hrun : c8w.runAcc [TROp.read 1, TROp.seek 3 SEEK_SET] = .ok (c8res, 1, 2, 0) := by
    simp [c8w, c8res, TransReadSt.runAcc, TransReadSt.stepAcc, TransReadSt.read,
      TransFileObj.read, TransFileObj.nativeSeek, fake_seek_forward, fakeSeekRest,
      fakeSeekLoop, ByteSource.read, Except.map, SEEK_SET, SEEK_CUR, Nat.min_def]
  exact ⟨hrun,
    C8_position_accounting c8w [TROp.read 1, TROp.seek 3 SEEK_SET] c8res 1 2 0 hrun⟩

end BmapTools
